import Mathlib

/-!
# Verification of the rrule recurrence engine

A shallow embedding of `rrule.go` (package `rrule`): the option record, the
normalizing constructor `NewRRule` with `validateBounds`, the per-year
`iterInfo` tables built by `rebuild`, the day-set/time-set builders, and the
iterator loop `generate`/`next`.

Modelling conventions:
* Go `time.Time` values are modelled on a linear civil time line: an instant
  is an `Int` counting seconds from 0001-01-01T00:00:00 of the rule's (fixed)
  location, computed from civil components by `dtSec`.  With a fixed location
  (no DST re-examination, which matches the engine), Go's `Before`/`After`
  comparisons agree with comparisons of these integers, and
  `AddDate(0, 0, n)` adds `n` days.
* Go machine integers are modelled as `Int`.  All `divmod`/`pymod` call sites
  in the engine use positive divisors, where Lean's `/`/`%` on `Int`
  (Euclidean) agree with Python's floor division and sign-matched remainder.
* Writes into masks in `rebuild` are index-checked (`setIdx`); an
  out-of-range write makes the whole computation `none`, modelling the Go
  runtime panic `index out of range`.
* The helper file of the repository (`pymod`, `divmod`, `pySubscript`,
  `easter`, `contains`, `MAXYEAR`, `all`, the `init` table builders'
  `concat`/`repeat`/`rang`, …) is not part of the given sources; those
  definitions are modelled from the spec where marked.
-/

/-- List element read `l[i]` for an `Int` index, total with default 0.  Every
read reached by the engine on an in-range index agrees with Go; out-of-range
reads in `rebuild` are modelled separately with `getIdx`. -/
def idx (l : List Int) (i : Int) : Int :=
  if i < 0 then 0 else l.getD i.toNat 0

/-- Checked list read: `none` models the Go panic `index out of range`. -/
def getIdx (l : List Int) (i : Int) : Option Int :=
  if 0 ≤ i ∧ i.toNat < l.length then some (l.getD i.toNat 0) else none

/-- Checked list write `l[i] = v`: `none` models the Go panic
`index out of range`. -/
def setIdx (l : List Int) (i : Int) (v : Int) : Option (List Int) :=
  if 0 ≤ i ∧ i.toNat < l.length then some (l.set i.toNat v) else none

/-- Helper for intRange: `n` consecutive integers from `a`. -/
def intRangeAux : Nat → Int → List Int
  | 0, _ => []
  | n + 1, a => a :: intRangeAux n (a + 1)

/-- `[a, a+1, …, b-1]`, the window of ordinal days `dayset[start:end]`. -/
def intRange (a b : Int) : List Int := intRangeAux (b - a).toNat a

/-- Modelled from the spec: Python-style sign-matched remainder (`pymod` of
the helper file).  All call sites use a positive modulus, where `Int.emod`
is exactly Python's `%`. -/
def pymod (a b : Int) : Int := a % b

/-- Modelled from the spec: Python's `divmod` with floor division (`divmod`
of the helper file).  All call sites use a positive divisor, where `Int`'s
Euclidean `/` and `%` are exactly Python's. -/
def divmod (a b : Int) : Int × Int := (a / b, a % b)

/-- Modelled from the spec: Python-style list subscript used for BYSETPOS
(`pySubscript` of the helper file): negative indices count from the end,
out-of-range indices are an error (silently skipped by the caller). -/
def pySubscript (l : List Int) (i : Int) : Option Int :=
  let j := if i < 0 then i + l.length else i
  if 0 ≤ j ∧ j.toNat < l.length then some (l.getD j.toNat 0) else none

/-- Insertion of an element into a sorted list (helper for `sortInts`). -/
def insertSorted (x : Int) : List Int → List Int
  | [] => [x]
  | y :: ys => if x ≤ y then x :: y :: ys else y :: insertSorted x ys

/-- Sorting an integer list ascending.  Models `sort.Sort(timeSlice(…))`:
for a total order the sorted permutation of a list is unique, so any
correct sort produces this list. -/
def sortInts : List Int → List Int
  | [] => []
  | x :: xs => insertSorted x (sortInts xs)

/-- Modelled from the spec (proleptic Gregorian calendar, helper `isLeap`):
1 when `year` is a leap year, else 0 (Go returns an `int` used as
`365 + isLeap(year)`). -/
def isLeap (y : Int) : Int :=
  if y % 4 == 0 ∧ (y % 100 != 0 ∨ y % 400 == 0) then 1 else 0

/-- Number of days in `year` (365 or 366). -/
def yearLenOf (y : Int) : Int := 365 + isLeap y

/-- Days from 0001-01-01 to January 1 of `year` in the proleptic Gregorian
calendar (the day-number line that `time.Time` dates are mapped to). -/
def daysToYear (y : Int) : Int :=
  365 * (y - 1) + (y - 1) / 4 - (y - 1) / 100 + (y - 1) / 400

/-- Modelled from the spec: `MAXYEAR` is 9999 per the reference semantics. -/
def MAXYEAR : Int := 9999

/-- Go helper `repeat(value, count)` (helper file): `count` copies. -/
def repeatInt (value count : Int) : List Int := List.replicate count.toNat value

/-- Go helper `rang(start, stop)` (helper file): `[start, …, stop-1]`. -/
def rang (start stop : Int) : List Int := intRange start stop

/-- Go helper `concat` (helper file): concatenation of the given lists. -/
def concat (ls : List (List Int)) : List Int := ls.flatten

/-- `M366MASK` from `init()`: month of each ordinal day of a leap year,
with a 7-day tail into the next January. -/
def M366MASK : List Int :=
  concat [repeatInt 1 31, repeatInt 2 29, repeatInt 3 31,
    repeatInt 4 30, repeatInt 5 31, repeatInt 6 30, repeatInt 7 31,
    repeatInt 8 31, repeatInt 9 30, repeatInt 10 31, repeatInt 11 30,
    repeatInt 12 31, repeatInt 1 7]

/-- `M365MASK` from `init()`: `concat(M366MASK[:59], M366MASK[60:])`. -/
def M365MASK : List Int := M366MASK.take 59 ++ M366MASK.drop 60

/-- `MDAY366MASK` from `init()`: day-of-month of each ordinal day. -/
def MDAY366MASK : List Int :=
  concat [rang 1 32, rang 1 30, rang 1 32, rang 1 31, rang 1 32, rang 1 31,
    rang 1 32, rang 1 32, rang 1 31, rang 1 32, rang 1 31, rang 1 32,
    (rang 1 32).take 7]

/-- `MDAY365MASK` from `init()`. -/
def MDAY365MASK : List Int := MDAY366MASK.take 59 ++ MDAY366MASK.drop 60

/-- `NMDAY366MASK` from `init()`: negative day-of-month of each ordinal day. -/
def NMDAY366MASK : List Int :=
  concat [rang (-31) 0, rang (-29) 0, rang (-31) 0, rang (-30) 0,
    rang (-31) 0, rang (-30) 0, rang (-31) 0, rang (-31) 0, rang (-30) 0,
    rang (-31) 0, rang (-30) 0, rang (-31) 0, (rang (-31) 0).take 7]

/-- `NMDAY365MASK` from `init()`:
`concat(NMDAY366MASK[:31], NMDAY366MASK[32:])`. -/
def NMDAY365MASK : List Int := NMDAY366MASK.take 31 ++ NMDAY366MASK.drop 32

/-- `M366RANGE` from the package var block. -/
def M366RANGE : List Int :=
  [0, 31, 60, 91, 121, 152, 182, 213, 244, 274, 305, 335, 366]

/-- `M365RANGE` from the package var block. -/
def M365RANGE : List Int :=
  [0, 31, 59, 90, 120, 151, 181, 212, 243, 273, 304, 334, 365]

/-- `WDAYMASK` from `init()`: `0,…,6` repeated 55 times. -/
def WDAYMASK : List Int := (List.replicate 55 [(0 : Int), 1, 2, 3, 4, 5, 6]).flatten

/-- The month-boundary offsets of `year` (selected in `rebuild`). -/
def mrangeOf (y : Int) : List Int :=
  if isLeap y == 1 then M366RANGE else M365RANGE

/-- Days in a month, Go helper `daysIn(m, year)`; meaningful for
`1 ≤ m ≤ 12`. -/
def daysIn (m y : Int) : Int := idx (mrangeOf y) m - idx (mrangeOf y) (m - 1)

/-- A civil date-time in the rule's location, modelling a `time.Time`
truncated to seconds. -/
structure DateTime where
  year : Int
  month : Int
  day : Int
  hour : Int
  minute : Int
  second : Int
deriving DecidableEq, Repr, Inhabited

/-- A `DateTime` with components in the ranges `time.Date` produces. -/
def validDT (t : DateTime) : Prop :=
  1 ≤ t.year ∧ 1 ≤ t.month ∧ t.month ≤ 12 ∧
  1 ≤ t.day ∧ t.day ≤ daysIn t.month t.year ∧
  0 ≤ t.hour ∧ t.hour < 24 ∧ 0 ≤ t.minute ∧ t.minute < 60 ∧
  0 ≤ t.second ∧ t.second < 60

instance (t : DateTime) : Decidable (validDT t) := by
  unfold validDT; infer_instance

/-- The ordinal day (0-based `YearDay() - 1`) of a civil date. -/
def ydayOf (y m d : Int) : Int := idx (mrangeOf y) (m - 1) + (d - 1)

/-- The absolute day number (days since 0001-01-01) of a civil date. -/
def absDayOf (y m d : Int) : Int := daysToYear y + ydayOf y m d

/-- Seconds since 0001-01-01T00:00:00 of a civil date-time; the linear
instant a `time.Time` denotes (in the rule's fixed location). -/
def dtSec (t : DateTime) : Int :=
  absDayOf t.year t.month t.day * 86400 +
    t.hour * 3600 + t.minute * 60 + t.second

/-- Convenience constructor for instants in theorem statements. -/
def civilSec (y mo d h mi s : Int) : Int :=
  dtSec ⟨y, mo, d, h, mi, s⟩

/-- `Weekday` (`rrule.go`): a weekday index 0..6 (Monday = 0) with an
ordinal `n` (`MO.Nth(3)` is the 3rd Monday). -/
structure Weekday where
  weekday : Int
  n : Int
deriving DecidableEq, Repr, Inhabited

/-- The exported weekday constant `MO`. -/
def MO : Weekday := ⟨0, 0⟩

/-- The exported weekday constant `TU`. -/
def TU : Weekday := ⟨1, 0⟩

/-- The exported weekday constant `WE`. -/
def WE : Weekday := ⟨2, 0⟩

/-- The exported weekday constant `TH`. -/
def TH : Weekday := ⟨3, 0⟩

/-- The exported weekday constant `FR`. -/
def FR : Weekday := ⟨4, 0⟩

/-- The exported weekday constant `SA`. -/
def SA : Weekday := ⟨5, 0⟩

/-- The exported weekday constant `SU`. -/
def SU : Weekday := ⟨6, 0⟩

/-- `Weekday.Nth` (`rrule.go`). -/
def Weekday.Nth (w : Weekday) (n : Int) : Weekday := ⟨w.weekday, n⟩

/-- The `Frequency` constant `YEARLY` (Go `iota` value 0). -/
def YEARLY : Int := 0

/-- The `Frequency` constant `MONTHLY`. -/
def MONTHLY : Int := 1

/-- The `Frequency` constant `WEEKLY`. -/
def WEEKLY : Int := 2

/-- The `Frequency` constant `DAILY`. -/
def DAILY : Int := 3

/-- The `Frequency` constant `HOURLY`. -/
def HOURLY : Int := 4

/-- The `Frequency` constant `MINUTELY`. -/
def MINUTELY : Int := 5

/-- The `Frequency` constant `SECONDLY`. -/
def SECONDLY : Int := 6

/-- `ROption` (`rrule.go`): the user-supplied options record.
`dtstart` is the already-truncated start (the `Dtstart.IsZero()` →
`time.Now()` branch is outside the embedding: all claims supply a start);
`until` is `none` when `Until` is the zero `time.Time`, otherwise the
instant in *nanoseconds* on the same linear time line. -/
structure ROption where
  freq : Int
  dtstart : DateTime
  interval : Int
  wkst : Weekday
  count : Int
  untilTime : Option Int
  bysetpos : List Int
  bymonth : List Int
  bymonthday : List Int
  byyearday : List Int
  byweekno : List Int
  byweekday : List Weekday
  byhour : List Int
  byminute : List Int
  bysecond : List Int
  byeaster : List Int
deriving DecidableEq, Repr, Inhabited

/-- Default options: zero values of the Go struct fields (freq YEARLY is the
zero `Frequency`; the zero `Weekday` is `MO`). -/
def defOpts (dt : DateTime) : ROption :=
  ⟨0, dt, 0, MO, 0, none, [], [], [], [], [], [], [], [], [], []⟩

/-- `RRule` (`rrule.go`): the normalized rule produced by `NewRRule`.
`untilNS` is `UntilTime` in nanoseconds (after `NewRRule` it is never the
zero time, so the `IsZero` guard of `generate` is always false and is not
modelled).  `timeset` holds times-of-day as seconds in `[0, 86400)`. -/
structure RRule where
  origOptions : ROption
  options : ROption
  freq : Int
  dtstart : DateTime
  interval : Int
  wkst : Int
  count : Int
  untilNS : Int
  bysetpos : List Int
  bymonth : List Int
  bymonthday : List Int
  bynmonthday : List Int
  byyearday : List Int
  byweekno : List Int
  byweekday : List Int
  bynweekday : List Weekday
  byhour : List Int
  byminute : List Int
  bysecond : List Int
  byeaster : List Int
  timeset : List Int
  len : Int
deriving DecidableEq, Repr, Inhabited

/-- One bound row of `validateBounds` applied to one value:
`true` iff the value is inside `[lo, hi]`, or inside `[-hi, -lo]` when
`plusMinus` is set. -/
def checkBounds (value lo hi : Int) (plusMinus : Bool) : Bool :=
  (lo ≤ value ∧ value ≤ hi) ∨ (plusMinus ∧ -hi ≤ value ∧ value ≤ -lo)

/-- `validateBounds` (`rrule.go` lines 230-279): `true` iff no error. -/
def validateBounds (arg : ROption) : Bool :=
  arg.bysecond.all (fun v => checkBounds v 0 59 false) ∧
  arg.byminute.all (fun v => checkBounds v 0 59 false) ∧
  arg.byhour.all (fun v => checkBounds v 0 23 false) ∧
  arg.bymonthday.all (fun v => checkBounds v 1 31 true) ∧
  arg.byyearday.all (fun v => checkBounds v 1 366 true) ∧
  arg.byweekno.all (fun v => checkBounds v 1 53 true) ∧
  arg.bymonth.all (fun v => checkBounds v 1 12 false) ∧
  arg.bysetpos.all (fun v => checkBounds v 1 366 true) ∧
  arg.byweekday.all (fun w => ¬(w.n > 53 ∨ w.n < -53)) ∧
  ¬(arg.interval < 0)

/-- `calculateTimeset` (`rrule.go`): the sorted Cartesian product
BYHOUR × BYMINUTE × BYSECOND when the frequency is coarser than HOURLY,
else the empty set. -/
def calculateTimeset (freq : Int) (byhour byminute bysecond : List Int) :
    List Int :=
  if freq < HOURLY then
    sortInts ((byhour.map (fun h =>
      (byminute.map (fun mi =>
        bysecond.map (fun s => h * 3600 + mi * 60 + s))).flatten)).flatten)
  else []

/-- `toPyWeekday` (helper file, modelled from the spec: weekday index with
Monday = 0) of the day at absolute day number `d`; day 0 = 0001-01-01 was
a Monday. -/
def pyDow (d : Int) : Int := d % 7

/-- `NewRRule` (`rrule.go` lines 138-224): validates, fills defaults, splits
`BYMONTHDAY` by sign, demotes positioned weekdays for fine frequencies, and
precomputes the time-set.  `none` is the error return. -/
def NewRRule (arg : ROption) : Option RRule :=
  if validateBounds arg then
    let dtstart := arg.dtstart
    let freq := arg.freq
    let interval := if arg.interval == 0 then 1 else arg.interval
    let untilNS := match arg.untilTime with
      | none => dtSec dtstart * 1000000000 + (2 ^ 63 - 1)
      | some u => u
    let noFilters := arg.byweekno.isEmpty ∧ arg.byyearday.isEmpty ∧
      arg.bymonthday.isEmpty ∧ arg.byweekday.isEmpty ∧ arg.byeaster.isEmpty
    let bymonth' := if noFilters ∧ freq == YEARLY ∧ arg.bymonth.isEmpty then
        [dtstart.month] else arg.bymonth
    let bymonthday' := if noFilters ∧ (freq == YEARLY ∨ freq == MONTHLY) then
        [dtstart.day] else arg.bymonthday
    let byweekdayArg := if noFilters ∧ freq == WEEKLY then
        [⟨pyDow (absDayOf dtstart.year dtstart.month dtstart.day), 0⟩]
      else arg.byweekday
    let bymonthdayPos := bymonthday'.filter (fun mday => mday > 0)
    let bymonthdayNeg := bymonthday'.filter (fun mday => mday < 0)
    let byweekday' := (byweekdayArg.filter
      (fun w => w.n == 0 ∨ freq > MONTHLY)).map (fun w => w.weekday)
    let bynweekday' := byweekdayArg.filter (fun w => ¬(w.n == 0 ∨ freq > MONTHLY))
    let byhour' := if arg.byhour.isEmpty then
        (if freq < HOURLY then [dtstart.hour] else []) else arg.byhour
    let byminute' := if arg.byminute.isEmpty then
        (if freq < MINUTELY then [dtstart.minute] else []) else arg.byminute
    let bysecond' := if arg.bysecond.isEmpty then
        (if freq < SECONDLY then [dtstart.second] else []) else arg.bysecond
    let options : ROption :=
      { arg with
        untilTime := some untilNS
        bymonth := bymonth'
        bymonthday := bymonthday'
        byweekday := byweekdayArg }
    some
      { origOptions := arg
        options := options
        freq := freq
        dtstart := dtstart
        interval := interval
        wkst := arg.wkst.weekday
        count := arg.count
        untilNS := untilNS
        bysetpos := arg.bysetpos
        bymonth := bymonth'
        bymonthday := bymonthdayPos
        bynmonthday := bymonthdayNeg
        byyearday := arg.byyearday
        byweekno := arg.byweekno
        byweekday := byweekday'
        bynweekday := bynweekday'
        byhour := byhour'
        byminute := byminute'
        bysecond := bysecond'
        byeaster := arg.byeaster
        timeset := calculateTimeset freq byhour' byminute' bysecond'
        len := 0 }
  else none

/-- Modelled from the spec: Western Easter via the anonymous Gregorian
Computus (helper `easter`), as the 0-based ordinal day of the year
(`easter(year).YearDay() - 1` in `rebuild`). -/
def easterYday (y : Int) : Int :=
  let a := y % 19
  let b := y / 100
  let c := y % 100
  let d := b / 4
  let e := b % 4
  let f := (b + 8) / 25
  let g := (b - f + 1) / 3
  let h := (19 * a + b - d - g + 15) % 30
  let i := c / 4
  let k := c % 4
  let l := (32 + 2 * e + 2 * i - h - k) % 7
  let m := (a + 11 * h + 22 * l) / 451
  let month := (h + l - 7 * m + 114) / 31
  let day := (h + l - 7 * m + 114) % 31 + 1
  idx (mrangeOf y) (month - 1) + (day - 1)

/-- `iterInfo` (`rrule.go`): the per-year tables produced by `rebuild`.
`fday` is the absolute day number of `firstyday` (January 1); the caching
fields `lastyear`/`lastmonth` are omitted because `rebuild` is only invoked
when year or month changed, so the tables are a pure function of
`(rule, year, month)`. -/
structure Info where
  yearlen : Int
  nextyearlen : Int
  fday : Int
  yearweekday : Int
  mmask : List Int
  mrange : List Int
  mdaymask : List Int
  nmdaymask : List Int
  wdaymask : List Int
  wnomask : List Int
  nwdaymask : List Int
  eastermask : List Int
deriving DecidableEq, Repr, Inhabited

/-- The seven-day marking loop of the BYWEEKNO mask build (`rebuild`):
set `mask[i] = 1`, advance, stop after the day before the next `wkst`
day or after seven days. -/
def markWeek (wdm : List Int) (wkst : Int) : Nat → Int → List Int →
    Option (List Int)
  | 0, _, mask => some mask
  | j + 1, i, mask =>
    match setIdx mask i 1 with
    | none => none
    | some mask' =>
      if idx wdm (i + 1) == wkst then some mask'
      else markWeek wdm wkst j (i + 1) mask'

/-- The BYWEEKNO mask of `rebuild` (`rrule.go` lines 320-409): indicator per
ordinal day of membership in a requested week number.  `[]` when BYWEEKNO
is empty (Go `nil`). -/
def buildWnomask (r : RRule) (year yearlen yearweekday : Int)
    (wdm : List Int) : Option (List Int) :=
  if r.byweekno.isEmpty then some []
  else
    let firstwkst := pymod (7 - yearweekday + r.wkst) 7
    let no1wkst := if firstwkst ≥ 4 then 0 else firstwkst
    let wyearlen := if firstwkst ≥ 4 then
        yearlen + pymod (yearweekday - r.wkst) 7
      else yearlen - no1wkst
    let dm := divmod wyearlen 7
    let numweeks := dm.1 + dm.2 / 4
    let step1 := r.byweekno.foldlM (fun mask n =>
      let n' := if n < 0 then n + numweeks + 1 else n
      if ¬(0 < n' ∧ n' ≤ numweeks) then some mask
      else
        let i := if n' > 1 then
            (let i0 := no1wkst + (n' - 1) * 7
             if no1wkst != firstwkst then i0 - (7 - firstwkst) else i0)
          else no1wkst
        markWeek wdm r.wkst 7 i mask) (repeatInt 0 (yearlen + 7))
    match step1 with
    | none => none
    | some mask1 =>
      let step2 :=
        if r.byweekno.contains 1 then
          let i0 := no1wkst + numweeks * 7
          let i := if no1wkst != firstwkst then i0 - (7 - firstwkst) else i0
          if i < yearlen then markWeek wdm r.wkst 7 i mask1 else some mask1
        else some mask1
      match step2 with
      | none => none
      | some mask2 =>
        if no1wkst != 0 then
          let lnumweeks :=
            if ¬ r.byweekno.contains (-1) then
              let lyearweekday := pyDow (daysToYear (year - 1))
              let lno1wkst := pymod (7 - lyearweekday + r.wkst) 7
              let lyearlen := 365 + isLeap (year - 1)
              if lno1wkst ≥ 4 then
                52 + pymod (lyearlen + pymod (lyearweekday - r.wkst) 7) 7 / 4
              else 52 + pymod (yearlen - no1wkst) 7 / 4
            else -1
          if r.byweekno.contains lnumweeks then
            (intRange 0 no1wkst).foldlM (fun mask i => setIdx mask i 1) mask2
          else some mask2
        else some mask2

/-- The positioned-weekday mask of `rebuild` (`rrule.go` lines 411-447):
indicator per ordinal day of being the Nth weekday of its month (MONTHLY)
or of a BYMONTH month / the year (YEARLY).  `[]` when inactive. -/
def buildNwdaymask (r : RRule) (yearlen month : Int)
    (mrange wdm : List Int) : Option (List Int) :=
  if r.bynweekday.isEmpty then some []
  else
    let ranges : List (Int × Int) :=
      if r.freq == YEARLY then
        if ¬ r.bymonth.isEmpty then
          r.bymonth.map (fun m => (idx mrange (m - 1), idx mrange m))
        else [(0, yearlen)]
      else if r.freq == MONTHLY then
        [(idx mrange (month - 1), idx mrange month)]
      else []
    if ranges.isEmpty then some []
    else
      ranges.foldlM (fun (mask : List Int) (x : Int × Int) =>
        let first := x.1
        let last := x.2 - 1
        r.bynweekday.foldlM (fun (mask : List Int) (y : Weekday) =>
          let oi : Option Int :=
            if y.n < 0 then
              let i0 := last + (y.n + 1) * 7
              (getIdx wdm i0).map (fun w => i0 - pymod (w - y.weekday) 7)
            else
              let i0 := first + (y.n - 1) * 7
              (getIdx wdm i0).map (fun w => i0 + pymod (7 - w + y.weekday) 7)
          match oi with
          | none => none
          | some i =>
            if first ≤ i ∧ i ≤ last then setIdx mask i 1 else some mask)
          mask) (repeatInt 0 yearlen)

/-- The BYEASTER mask of `rebuild` (`rrule.go` lines 448-454): the write
`eastermask[eyday+offset] = 1` is unchecked in Go, so an offset that puts
the index outside `[0, yearlen+7)` is a runtime panic, modelled by `none`. -/
def buildEastermask (r : RRule) (year yearlen : Int) : Option (List Int) :=
  if r.byeaster.isEmpty then some []
  else
    let eyday := easterYday year
    r.byeaster.foldlM (fun mask offset => setIdx mask (eyday + offset) 1)
      (repeatInt 0 (yearlen + 7))

/-- `rebuild` (`rrule.go` lines 299-457) as a pure function of
`(rule, year, month)`. -/
def buildInfo (r : RRule) (year month : Int) : Option Info :=
  let yearlen := 365 + isLeap year
  let nextyearlen := 365 + isLeap (year + 1)
  let fday := daysToYear year
  let yearweekday := pyDow fday
  let wdm := WDAYMASK.drop yearweekday.toNat
  let mmask := if yearlen == 365 then M365MASK else M366MASK
  let mdaymask := if yearlen == 365 then MDAY365MASK else MDAY366MASK
  let nmdaymask := if yearlen == 365 then NMDAY365MASK else NMDAY366MASK
  let mrange := if yearlen == 365 then M365RANGE else M366RANGE
  match buildWnomask r year yearlen yearweekday wdm with
  | none => none
  | some wnomask =>
    match buildNwdaymask r yearlen month mrange wdm with
    | none => none
    | some nwdaymask =>
      match buildEastermask r year yearlen with
      | none => none
      | some eastermask =>
        some ⟨yearlen, nextyearlen, fday, yearweekday, mmask, mrange,
          mdaymask, nmdaymask, wdm, wnomask, nwdaymask, eastermask⟩

/-- The WEEKLY day-set end scan of `getdayset`: starting at ordinal `i`,
cover up to seven days, stopping after the day before the next `wkst`
day. -/
def weeklyEnd (wdm : List Int) (wkst : Int) : Nat → Int → Int
  | 0, i => i
  | j + 1, i => if idx wdm (i + 1) == wkst then i + 1
                else weeklyEnd wdm wkst j (i + 1)

/-- `getdayset` (`rrule.go` lines 459-499): the `[start, end)` window of
candidate ordinal days for the current frequency and cursor.  The ordinal
of `(year, month, day)` is `mrange[month-1] + day - 1`
(Go `time.Date(…).YearDay() - 1`). -/
def getdayset (r : RRule) (info : Info) (month day : Int) : Int × Int :=
  if r.freq == YEARLY then (0, info.yearlen)
  else if r.freq == MONTHLY then
    (idx info.mrange (month - 1), idx info.mrange month)
  else if r.freq == WEEKLY then
    let i := idx info.mrange (month - 1) + (day - 1)
    (i, weeklyEnd info.wdaymask r.wkst 7 i)
  else
    let i := idx info.mrange (month - 1) + (day - 1)
    (i, i + 1)

/-- `gettimeset` (`rrule.go` lines 501-519): the sorted times-of-day (as
seconds) to attach to each candidate day at the current cursor. -/
def gettimeset (r : RRule) (freq hour minute second : Int) : List Int :=
  if freq == HOURLY then
    sortInts ((r.byminute.map (fun mi =>
      r.bysecond.map (fun s => hour * 3600 + mi * 60 + s))).flatten)
  else if freq == MINUTELY then
    sortInts (r.bysecond.map (fun s => hour * 3600 + minute * 60 + s))
  else if freq == SECONDLY then [hour * 3600 + minute * 60 + second]
  else []

/-- The filter of `generate` (`rrule.go` lines 546-565): `true` when ordinal
day `i` is rejected by some active `BY*` constraint. -/
def dayFiltered (r : RRule) (info : Info) (i : Int) : Bool :=
  (¬ r.bymonth.isEmpty ∧ ¬ r.bymonth.contains (idx info.mmask i)) ∨
  (¬ r.byweekno.isEmpty ∧ idx info.wnomask i == 0) ∨
  (¬ r.byweekday.isEmpty ∧ ¬ r.byweekday.contains (idx info.wdaymask i)) ∨
  (¬ info.nwdaymask.isEmpty ∧ idx info.nwdaymask i == 0) ∨
  (¬ r.byeaster.isEmpty ∧ idx info.eastermask i == 0) ∨
  ((¬ r.bymonthday.isEmpty ∨ ¬ r.bynmonthday.isEmpty) ∧
    ¬ r.bymonthday.contains (idx info.mdaymask i) ∧
    ¬ r.bynmonthday.contains (idx info.nmdaymask i)) ∨
  (¬ r.byyearday.isEmpty ∧
    ((i < info.yearlen ∧ ¬ r.byyearday.contains (i + 1) ∧
        ¬ r.byyearday.contains (-info.yearlen + i)) ∨
      (info.yearlen ≤ i ∧ ¬ r.byyearday.contains (i + 1 - info.yearlen) ∧
        ¬ r.byyearday.contains (-info.nextyearlen + i - info.yearlen))))

/-- The BYSETPOS selection of `generate` (`rrule.go` lines 567-595): for
each position, `divmod` against the time-set size picks a surviving day
(Python subscript, silently skipped when out of range) and a time; the
results are deduplicated preserving order, then sorted. -/
def setposStep (r : RRule) (info : Info) (timeset surv : List Int)
    (poslist : List Int) (pos : Int) : List Int :=
  let dt := if pos < 0 then divmod pos timeset.length
    else divmod (pos - 1) timeset.length
  match pySubscript surv dt.1 with
  | none => poslist
  | some i =>
    if poslist.contains ((info.fday + i) * 86400 + idx timeset dt.2) then
      poslist
    else poslist ++ [(info.fday + i) * 86400 + idx timeset dt.2]

/-- The BYSETPOS batch: the per-position selections, deduplicated in
encounter order, then sorted ascending. -/
def setposList (r : RRule) (info : Info) (timeset surv : List Int) :
    List Int :=
  sortInts (r.bysetpos.foldl (setposStep r info timeset surv) [])

/-- The emission checks of `generate` (`rrule.go` lines 596-613 and
624-640), processing one period's candidates in order: a candidate past
`until` finishes the iterator at once; one at/after the start is emitted
and decrements a nonzero `count`, finishing when it reaches zero.  Returns
`(emitted, count, total, finished)`. -/
def emitLoop (r : RRule) : List Int → Int → Int →
    List Int × Int × Int × Bool
  | [], count, total => ([], count, total, false)
  | res :: rest, count, total =>
    if res * 1000000000 > r.untilNS then ([], count, total, true)
    else if ¬(res < dtSec r.dtstart) then
      if count != 0 then
        if count - 1 == 0 then ([res], count - 1, total + 1, true)
        else
          (res :: (emitLoop r rest (count - 1) (total + 1)).1,
            (emitLoop r rest (count - 1) (total + 1)).2)
      else
        (res :: (emitLoop r rest count (total + 1)).1,
          (emitLoop r rest count (total + 1)).2)
    else emitLoop r rest count total

/-- The cursor componentry of `rIterator` (`rrule.go` lines 521-536): the
fields the frequency stepper reads and writes.  The bookkeeping fields
`count` and `total`, which only the emission checks touch, live in
`IterState` beside it. -/
structure Cursor where
  year : Int
  month : Int
  day : Int
  hour : Int
  minute : Int
  second : Int
  weekday : Int
  timeset : List Int
deriving DecidableEq, Repr, Inhabited

/-- `rIterator`'s mutable state; the `remain` buffer is not stored: the
stream is the concatenation of the per-period emissions, which is exactly
what repeated `next()` yields. -/
structure IterState where
  cur : Cursor
  count : Int
  total : Int
deriving DecidableEq, Repr, Inhabited

/-- The HOURLY advance loop of `generate` (lines 686-697).  The hour values
cycle with period at most 24, so if no BYHOUR-acceptable hour appears
within 24 steps the Go loop never terminates: `none`. -/
def hourLoop (r : RRule) : Nat → Int → Int → Bool →
    Option (Int × Int × Bool)
  | 0, _, _, _ => none
  | f + 1, day, hour, fixday =>
    let h1 := hour + r.interval
    let dm := divmod h1 24
    let s := if dm.1 != 0 then (day + dm.1, dm.2, true) else (day, h1, fixday)
    if r.byhour.isEmpty ∨ r.byhour.contains s.2.1 then some s
    else hourLoop r f s.1 s.2.1 s.2.2

/-- The MINUTELY advance loop of `generate` (lines 704-722); minute-of-day
values cycle with period at most 1440.  (The dead store `filtered = false`
inside the loop is omitted: `filtered` is not read afterwards.)  State is
`(day, hour, minute, fixday)`. -/
def minuteLoop (r : RRule) : Nat → Int → Int → Int → Bool →
    Option (Int × Int × Int × Bool)
  | 0, _, _, _, _ => none
  | f + 1, day, hour, minute, fixday =>
    let m1 := minute + r.interval
    let dm := divmod m1 60
    let s :=
      if dm.1 != 0 then
        let h1 := hour + dm.1
        let dm2 := divmod h1 24
        if dm2.1 != 0 then (day + dm2.1, dm2.2, dm.2, true)
        else (day, h1, dm.2, fixday)
      else (day, hour, m1, fixday)
    if (r.byhour.isEmpty ∨ r.byhour.contains s.2.1) ∧
        (r.byminute.isEmpty ∨ r.byminute.contains s.2.2.1) then some s
    else minuteLoop r f s.1 s.2.1 s.2.2.1 s.2.2.2

/-- The SECONDLY advance loop of `generate` (lines 729-752); second-of-day
values cycle with period at most 86400.  State is
`(day, hour, minute, second, fixday)`. -/
def secondLoop (r : RRule) : Nat → Int → Int → Int → Int → Bool →
    Option (Int × Int × Int × Int × Bool)
  | 0, _, _, _, _, _ => none
  | f + 1, day, hour, minute, second, fixday =>
    let s1 := second + r.interval
    let dm := divmod s1 60
    let s :=
      if dm.1 != 0 then
        let m1 := minute + dm.1
        let dm2 := divmod m1 60
        if dm2.1 != 0 then
          let h1 := hour + dm2.1
          let dm3 := divmod h1 24
          if dm3.1 != 0 then (day + dm3.1, dm3.2, dm2.2, dm.2, true)
          else (day, h1, dm2.2, dm.2, fixday)
        else (day, hour, m1, dm.2, fixday)
      else (day, hour, minute, s1, fixday)
    if (r.byhour.isEmpty ∨ r.byhour.contains s.2.1) ∧
        (r.byminute.isEmpty ∨ r.byminute.contains s.2.2.1) ∧
        (r.bysecond.isEmpty ∨ r.bysecond.contains s.2.2.2.1) then some s
    else secondLoop r f s.1 s.2.1 s.2.2.1 s.2.2.2.1 s.2.2.2.2

/-- Result of the frequency stepper: iteration finished (year overflow), or
the next cursor. -/
inductive StepOut
  | fin
  | next (c : Cursor)
deriving DecidableEq, Repr, Inhabited

/-- Result of the day fix-up: year overflow, or a (now valid) date. -/
inductive FixOut
  | fin
  | ok (year month day : Int)
deriving DecidableEq, Repr, Inhabited

/-- The day fix-up loop of `generate` (lines 755-774): roll an overflowed
day-of-month into following months and years, finishing on year overflow.
The fuel only pads the recursion: each pass removes at least 28 days, so
`day.toNat + 1` passes always suffice. -/
def fixdayLoop : Nat → Int → Int → Int → Option FixOut
  | 0, _, _, _ => none
  | f + 1, year, month, day =>
    let dim := daysIn month year
    if day ≤ dim then some (.ok year month day)
    else
      let day' := day - dim
      if month + 1 == 13 then
        if year + 1 > MAXYEAR then some .fin
        else fixdayLoop f (year + 1) 1 day'
      else fixdayLoop f year (month + 1) day'

/-- The guarded day fix-up of `generate`: runs only when the step marked
`fixday` and the day exceeds 28. -/
def applyFixday (c : Cursor) (fixday : Bool) : Option StepOut :=
  if fixday ∧ c.day > 28 then
    match fixdayLoop (c.day.toNat + 1) c.year c.month c.day with
    | none => none
    | some .fin => some .fin
    | some (.ok y m d) =>
      some (.next { c with year := y, month := m, day := d })
  else some (.next c)

/-- The frequency stepper of `generate` (`rrule.go` lines 643-774):
advance the cursor by `interval` in the active frequency dimension,
carrying into coarser components, refreshing the time-set for the
sub-daily frequencies, and finally fixing up an overflowed day.
`filtered` tells the sub-daily frequencies whether the period had a
rejected day (they then jump to just before the next day boundary).
A frequency outside the seven constants matches no branch and leaves the
cursor unchanged, like the Go `if`/`else if` chain. -/
def stepCursor (r : RRule) (c : Cursor) (filtered : Bool) :
    Option StepOut :=
  if r.freq == YEARLY then
    let year' := c.year + r.interval
    if year' > MAXYEAR then some .fin
    else some (.next { c with year := year' })
  else if r.freq == MONTHLY then
    let m1 := c.month + r.interval
    if m1 > 12 then
      let dm := divmod m1 12
      let s := if dm.2 == 0 then (12, c.year + dm.1 - 1)
        else (dm.2, c.year + dm.1)
      if s.2 > MAXYEAR then some .fin
      else some (.next { c with year := s.2, month := s.1 })
    else some (.next { c with month := m1 })
  else if r.freq == WEEKLY then
    let day' := if r.wkst > c.weekday then
        c.day + (-(c.weekday + 1 + (6 - r.wkst)) + r.interval * 7)
      else c.day + (-(c.weekday - r.wkst) + r.interval * 7)
    applyFixday { c with day := day', weekday := r.wkst } true
  else if r.freq == DAILY then
    applyFixday { c with day := c.day + r.interval } true
  else if r.freq == HOURLY then
    let hour0 := if filtered then
        c.hour + (23 - c.hour) / r.interval * r.interval
      else c.hour
    match hourLoop r 24 c.day hour0 false with
    | none => none
    | some s =>
      applyFixday { c with
        day := s.1
        hour := s.2.1
        timeset := gettimeset r r.freq s.2.1 c.minute c.second } s.2.2
  else if r.freq == MINUTELY then
    let minute0 := if filtered then
        c.minute + (1439 - (c.hour * 60 + c.minute)) / r.interval * r.interval
      else c.minute
    match minuteLoop r 1440 c.day c.hour minute0 false with
    | none => none
    | some s =>
      applyFixday { c with
        day := s.1
        hour := s.2.1
        minute := s.2.2.1
        timeset := gettimeset r r.freq s.2.1 s.2.2.1 c.second } s.2.2.2
  else if r.freq == SECONDLY then
    let second0 := if filtered then
        c.second + (86399 - (c.hour * 3600 + c.minute * 60 + c.second)) /
          r.interval * r.interval
      else c.second
    match secondLoop r 86400 c.day c.hour c.minute second0 false with
    | none => none
    | some s =>
      applyFixday { c with
        day := s.1
        hour := s.2.1
        minute := s.2.2.1
        second := s.2.2.2.1
        timeset := gettimeset r r.freq s.2.1 s.2.2.1 s.2.2.2.1 } s.2.2.2.2
  else some (.next c)

/-- Result of one pass over the `for len(remain) == 0` body of `generate`:
the candidates emitted into `remain`, and either the next cursor or the
finished iterator with the total written to `r.Len`. -/
inductive PassOut
  | fin (emitted : List Int) (total : Int)
  | next (emitted : List Int) (st : IterState)
deriving DecidableEq, Repr, Inhabited

/-- The period's candidate batch (`rrule.go` lines 541-595): the day-set
window, the `BY*` filter pass, and either the BYSETPOS selection or the
plain cross product of surviving days with the time-set.  Also reports
whether any day of the window was filtered.  `none` models a Go runtime
panic inside `rebuild`. -/
def periodBatch (r : RRule) (c : Cursor) : Option (List Int × Bool) :=
  match buildInfo r c.year c.month with
  | none => none
  | some info =>
    let ds := getdayset r info c.month c.day
    let window := intRange ds.1 ds.2
    let surv := window.filter (fun i => !dayFiltered r info i)
    let filtered := window.any (fun i => dayFiltered r info i)
    let batch :=
      if ¬ r.bysetpos.isEmpty ∧ ¬ c.timeset.isEmpty then
        setposList r info c.timeset surv
      else
        (surv.map (fun i => c.timeset.map
          (fun tod => (info.fday + i) * 86400 + tod))).flatten
    some (batch, filtered)

/-- One pass of `generate` (`rrule.go` lines 538-775): build the period's
candidate batch, emit it under the until/start/count checks, then step the
cursor. -/
def stepPeriod (r : RRule) (st : IterState) : Option PassOut :=
  match periodBatch r st.cur with
  | none => none
  | some (batch, filtered) =>
    let e := emitLoop r batch st.count st.total
    if e.2.2.2 then some (.fin e.1 e.2.2.1)
    else
      match stepCursor r st.cur filtered with
      | none => none
      | some .fin => some (.fin e.1 e.2.2.1)
      | some (.next c') =>
        some (.next e.1 { cur := c', count := e.2.1, total := e.2.2.1 })

/-- `fuel` passes of `generate`, concatenating the per-period emissions:
the stream that repeated `next()` yields.  Returns the outputs, whether
the iterator finished, and the `RRule` value after iteration — `generate`
writes `r.Len` through the shared pointer when it finishes. -/
def runRRule (r : RRule) (st : IterState) : Nat →
    Option (List Int × Bool × RRule)
  | 0 => some ([], false, r)
  | fuel + 1 =>
    match stepPeriod r st with
    | none => none
    | some (.fin emitted total) => some (emitted, true, { r with len := total })
    | some (.next emitted st') =>
      match runRRule r st' fuel with
      | none => none
      | some s => some (emitted ++ s.1, s.2)

/-- The initial time-set of `Iterator` (`rrule.go` lines 801-811). -/
def initTimeset (r : RRule) (hour minute second : Int) : List Int :=
  if r.freq < HOURLY then r.timeset
  else if (r.freq ≥ HOURLY ∧ ¬ r.byhour.isEmpty ∧
        ¬ r.byhour.contains hour) ∨
      (r.freq ≥ MINUTELY ∧ ¬ r.byminute.isEmpty ∧
        ¬ r.byminute.contains minute) ∨
      (r.freq ≥ SECONDLY ∧ ¬ r.bysecond.isEmpty ∧
        ¬ r.bysecond.contains second) then []
  else gettimeset r r.freq hour minute second

/-- The iterator seeding of `Iterator` (`rrule.go` lines 792-813): cursor
components from the start, its weekday, the initial time-set, and the
remaining count. -/
def initState (r : RRule) : IterState :=
  { cur :=
      { year := r.dtstart.year
        month := r.dtstart.month
        day := r.dtstart.day
        hour := r.dtstart.hour
        minute := r.dtstart.minute
        second := r.dtstart.second
        weekday := pyDow (absDayOf r.dtstart.year r.dtstart.month r.dtstart.day)
        timeset := initTimeset r r.dtstart.hour r.dtstart.minute r.dtstart.second }
    count := r.count
    total := 0 }

/-- The full iteration of a rule from its start: `Iterator()` followed by
`fuel` generation passes; `(·).1` is what `All()` (and draining `next()`)
yields once `finished` holds. -/
def rrStream (r : RRule) (fuel : Nat) : Option (List Int × Bool × RRule) :=
  runRRule r (initState r) fuel

/-- The numeric bounds of the specification, claim-side: seconds 0..59,
minutes 0..59, hours 0..23, month-day ±1..31, year-day ±1..366, week-no
±1..53, month 1..12, set-pos ±1..366, weekday ordinal within ±53, and a
non-negative interval. -/
def specBoundsOK (arg : ROption) : Prop :=
  (∀ v ∈ arg.bysecond, 0 ≤ v ∧ v ≤ 59) ∧
  (∀ v ∈ arg.byminute, 0 ≤ v ∧ v ≤ 59) ∧
  (∀ v ∈ arg.byhour, 0 ≤ v ∧ v ≤ 23) ∧
  (∀ v ∈ arg.bymonthday, (1 ≤ v ∧ v ≤ 31) ∨ (-31 ≤ v ∧ v ≤ -1)) ∧
  (∀ v ∈ arg.byyearday, (1 ≤ v ∧ v ≤ 366) ∨ (-366 ≤ v ∧ v ≤ -1)) ∧
  (∀ v ∈ arg.byweekno, (1 ≤ v ∧ v ≤ 53) ∨ (-53 ≤ v ∧ v ≤ -1)) ∧
  (∀ v ∈ arg.bymonth, 1 ≤ v ∧ v ≤ 12) ∧
  (∀ v ∈ arg.bysetpos, (1 ≤ v ∧ v ≤ 366) ∨ (-366 ≤ v ∧ v ≤ -1)) ∧
  (∀ w ∈ arg.byweekday, w.n ≤ 53 ∧ -53 ≤ w.n) ∧
  0 ≤ arg.interval

instance (arg : ROption) : Decidable (specBoundsOK arg) := by
  unfold specBoundsOK; infer_instance

theorem checkBounds_simple (v lo hi : Int) :
    checkBounds v lo hi false = true ↔ lo ≤ v ∧ v ≤ hi := by
  simp [checkBounds]

theorem checkBounds_pm (v lo hi : Int) :
    checkBounds v lo hi true = true ↔
      (lo ≤ v ∧ v ≤ hi) ∨ (-hi ≤ v ∧ v ≤ -lo) := by
  simp [checkBounds]

theorem validateBounds_iff (arg : ROption) :
    validateBounds arg = true ↔ specBoundsOK arg := by
  unfold validateBounds specBoundsOK
  simp only [List.all_eq_true, checkBounds_simple, checkBounds_pm,
    decide_eq_true_eq, Bool.and_eq_true, not_or, not_lt]

/-- C7: construction fails exactly on a numeric BY* value outside its
documented bounds, a BYDAY ordinal beyond ±53, or a negative interval; a
zero interval is accepted and coerced to 1. -/
theorem claim_C7 (arg : ROption) :
    ((NewRRule arg = none) ↔ ¬ specBoundsOK arg) ∧
    (∀ r, NewRRule arg = some r → arg.interval = 0 → r.interval = 1) := by
  constructor
  · rw [← validateBounds_iff]
    unfold NewRRule
    split <;> simp_all
  · intro r h hint
    unfold NewRRule at h
    split at h
    · injection h with h'
      subst h'
      simp [hint]
    · exact absurd h (by simp)

/-- Options of the worked example FREQ=SECONDLY with a zero interval. -/
def optsInterval0 : ROption :=
  { defOpts ⟨2020, 1, 1, 0, 0, 0⟩ with freq := SECONDLY, count := 1 }

/-- The rule of optsInterval0. -/
def ruleInterval0 : RRule := (NewRRule optsInterval0).getD default

theorem claim_C7_witness :
    (¬ (NewRRule optsInterval0 = none) ∧ specBoundsOK optsInterval0) ∧
    ruleInterval0.interval = 1 := by
  have h := claim_C7 optsInterval0
  refine ⟨⟨fun hn => ?_, ?_⟩, h.2 ruleInterval0 rfl rfl⟩
  · exact absurd (h.1.mp hn) (by decide)
  · by_contra hs
    exact absurd (h.1.mpr hs) (by decide)

/-- C8: with none of BYWEEKNO, BYYEARDAY, BYMONTHDAY, BYDAY, BYEASTER
given, construction inserts synthetic defaults from the start (YEARLY:
month and month-day; MONTHLY: month-day; WEEKLY: weekday); and positioned
BYDAY entries are kept positioned exactly for the YEARLY and MONTHLY
frequencies, otherwise demoted to the unpositioned weekday list. -/
theorem claim_C8 (arg : ROption) (r : RRule) (h : NewRRule arg = some r)
    (hfreq : 0 ≤ arg.freq) (hdt : validDT arg.dtstart) :
    ((arg.byweekno = [] ∧ arg.byyearday = [] ∧ arg.bymonthday = [] ∧
        arg.byweekday = [] ∧ arg.byeaster = []) →
      (arg.freq = YEARLY →
        (arg.bymonth = [] → r.bymonth = [arg.dtstart.month]) ∧
        r.bymonthday = [arg.dtstart.day]) ∧
      (arg.freq = MONTHLY → r.bymonthday = [arg.dtstart.day]) ∧
      (arg.freq = WEEKLY →
        r.byweekday =
          [pyDow (absDayOf arg.dtstart.year arg.dtstart.month
            arg.dtstart.day)])) ∧
    ((arg.freq = YEARLY ∨ arg.freq = MONTHLY) →
      r.bynweekday = arg.byweekday.filter (fun w => w.n != 0) ∧
      r.byweekday =
        (arg.byweekday.filter (fun w => w.n == 0)).map Weekday.weekday) ∧
    (¬(arg.freq = YEARLY ∨ arg.freq = MONTHLY) →
      r.bynweekday = [] ∧
      ∀ w ∈ arg.byweekday, w.weekday ∈ r.byweekday) := by
  have hday : 0 < arg.dtstart.day := by
    unfold validDT at hdt
    omega
  unfold NewRRule at h
  split at h
  case isFalse => exact absurd h (by simp)
  case isTrue hv =>
  injection h with h'
  subst h'
  simp only [YEARLY, MONTHLY, WEEKLY]
  refine ⟨?_, ?_, ?_⟩
  · rintro ⟨h1, h2, h3, h4, h5⟩
    refine ⟨?_, ?_, ?_⟩
    · intro hf
      constructor
      · intro hm
        simp [h1, h2, h3, h4, h5, hf, hm]
      · simp [h1, h2, h3, h4, h5, hf, hday]
    · intro hf
      simp [h1, h2, h3, h4, h5, hf, hday]
    · intro hf
      simp [h1, h2, h3, h4, h5, hf]
  · intro hf
    have hng : ¬ arg.freq > 1 := by omega
    have hnw : ¬ arg.freq = 2 := by omega
    constructor
    · simp only [hnw, beq_iff_eq, and_false, if_false]
      apply List.filter_congr
      intro w _
      by_cases hww : w.n = 0 <;> simp [hww, hng]
    · simp only [hnw, beq_iff_eq, and_false, if_false]
      apply congrArg
      apply List.filter_congr
      intro w _
      by_cases hww : w.n = 0 <;> simp [hww, hng]
  · intro hf
    have hg : arg.freq > 1 := by omega
    constructor
    · apply List.filter_eq_nil_iff.mpr
      intro w _
      simp [hg]
    · intro w hw
      by_cases hc : (arg.byweekno.isEmpty = true ∧ arg.byyearday.isEmpty = true ∧
          arg.bymonthday.isEmpty = true ∧ arg.byweekday.isEmpty = true ∧
          arg.byeaster.isEmpty = true) ∧ (arg.freq == 2) = true
      · have : arg.byweekday = [] := List.isEmpty_iff.mp hc.1.2.2.2.1
        simp [this] at hw
      · rw [if_neg hc]
        apply List.mem_map.mpr
        refine ⟨w, List.mem_filter.mpr ⟨hw, by simp [hg]⟩, rfl⟩

/-- Options with a positioned and an unpositioned BYDAY entry under
MONTHLY. -/
def optsNth : ROption :=
  { defOpts ⟨2020, 1, 1, 0, 0, 0⟩ with
    freq := MONTHLY
    count := 3
    byweekday := [Weekday.Nth MO 2, TU] }

/-- The rule of optsNth. -/
def ruleNth : RRule := (NewRRule optsNth).getD default

theorem claim_C8_witness :
    ruleNth.bynweekday = optsNth.byweekday.filter (fun w => w.n != 0) ∧
    ruleNth.byweekday =
      (optsNth.byweekday.filter (fun w => w.n == 0)).map Weekday.weekday :=
  (claim_C8 optsNth ruleNth rfl (by decide) (by decide)).2.1 (Or.inr rfl)

/-- Once the iterator reports finished, adding fuel changes nothing. -/
theorem runRRule_fuel_mono (fuel : Nat) :
    ∀ (g : Nat) (r : RRule) (st : IterState) (out : List Int) (r' : RRule),
      runRRule r st fuel = some (out, true, r') → fuel ≤ g →
      runRRule r st g = some (out, true, r') := by
  induction fuel with
  | zero =>
    intro g r st out r' h hg
    exact absurd h (by simp [runRRule])
  | succ f ih =>
    intro g r st out r' h hg
    obtain ⟨g', rfl⟩ : ∃ g', g = g' + 1 := ⟨g - 1, by omega⟩
    cases hsp : stepPeriod r st with
    | none =>
      rw [runRRule, hsp] at h
      exact absurd h (by simp)
    | some po =>
      rw [runRRule, hsp] at h
      rw [runRRule, hsp]
      cases po with
      | fin e total => exact h
      | next e st' =>
        simp only [] at h ⊢
        cases hrec : runRRule r st' f with
        | none =>
          rw [hrec] at h
          exact absurd h (by simp)
        | some s =>
          rw [hrec] at h
          obtain ⟨s1, s2, s3⟩ := s
          have h1 : e ++ s1 = out := congrArg (fun q => (Option.getD q ([], false, r)).1) h
          have h2 : s2 = true := congrArg (fun q => (Option.getD q ([], false, r)).2.1) h
          have h3 : s3 = r' := congrArg (fun q => (Option.getD q ([], false, r)).2.2) h
          subst h2
          rw [ih g' r st' s1 s3 hrec (by omega)]
          exact h

/-- The candidates a pass emits. -/
def PassOut.emitted : PassOut → List Int
  | .fin e _ => e
  | .next e _ => e

/-- Whatever a pass emits is the output of the emission checks on the
period's batch. -/
theorem stepPeriod_emitted (r : RRule) (st : IterState) (po : PassOut)
    (h : stepPeriod r st = some po) :
    ∃ batch : List Int,
      po.emitted = (emitLoop r batch st.count st.total).1 := by
  rw [stepPeriod] at h
  cases hpb : periodBatch r st.cur with
  | none => rw [hpb] at h; exact absurd h (by simp)
  | some bp =>
    obtain ⟨batch, filtered⟩ := bp
    rw [hpb] at h
    refine ⟨batch, ?_⟩
    simp only [] at h
    split at h
    · injection h with h
      subst h
      rfl
    · cases hsc : stepCursor r st.cur filtered with
      | none => rw [hsc] at h; exact absurd h (by simp)
      | some so =>
        rw [hsc] at h
        cases so with
        | fin =>
          injection h with h
          subst h
          rfl
        | next c' =>
          injection h with h
          subst h
          rfl

/-- Emitted candidates are never before the start and never after until. -/
theorem emitLoop_mem_bounds (r : RRule) :
    ∀ (batch : List Int) (count total t : Int),
      t ∈ (emitLoop r batch count total).1 →
      dtSec r.dtstart ≤ t ∧ t * 1000000000 ≤ r.untilNS := by
  intro batch
  induction batch with
  | nil =>
    intro count total t ht
    simp [emitLoop] at ht
  | cons res rest ih =>
    intro count total t ht
    rw [emitLoop] at ht
    split at ht
    · simp at ht
    · next h1 =>
      split at ht
      · next h2 =>
        split at ht
        · split at ht
          · simp at ht
            subst ht
            constructor <;> omega
          · simp only [List.mem_cons] at ht
            rcases ht with rfl | ht
            · constructor <;> omega
            · exact ih _ _ _ ht
        · simp only [List.mem_cons] at ht
          rcases ht with rfl | ht
          · constructor <;> omega
          · exact ih _ _ _ ht
      · exact ih _ _ _ ht

/-- Every output of the iterator loop is within the start/until bounds. -/
theorem runRRule_mem_bounds (r : RRule) (fuel : Nat) :
    ∀ (st : IterState) (out : List Int) (fin : Bool) (r' : RRule),
      runRRule r st fuel = some (out, fin, r') →
      ∀ t ∈ out, dtSec r.dtstart ≤ t ∧ t * 1000000000 ≤ r.untilNS := by
  induction fuel with
  | zero =>
    intro st out fin r' h t ht
    rw [runRRule] at h
    injection h with h
    rw [show out = [] from (congrArg Prod.fst h).symm] at ht
    simp at ht
  | succ f ih =>
    intro st out fin r' h t ht
    rw [runRRule] at h
    cases hsp : stepPeriod r st with
    | none => rw [hsp] at h; exact absurd h (by simp)
    | some po =>
      rw [hsp] at h
      obtain ⟨batch, hbatch⟩ := stepPeriod_emitted r st po hsp
      cases po with
      | fin e total =>
        injection h with h
        rw [show out = e from (congrArg Prod.fst h).symm] at ht
        rw [show e = (emitLoop r batch st.count st.total).1 from hbatch] at ht
        exact emitLoop_mem_bounds r batch st.count st.total t ht
      | next e st' =>
        simp only [] at h
        cases hrec : runRRule r st' f with
        | none => rw [hrec] at h; exact absurd h (by simp)
        | some s =>
          rw [hrec] at h
          injection h with h
          rw [show out = e ++ s.1 from (congrArg Prod.fst h).symm] at ht
          rcases List.mem_append.mp ht with hl | hr
          · rw [show e = (emitLoop r batch st.count st.total).1 from hbatch]
              at hl
            exact emitLoop_mem_bounds r batch st.count st.total t hl
          · exact ih st' s.1 s.2.1 s.2.2 (by rw [hrec]) t hr

/-- C5: every output of the iterator is at least the rule's start, and at
most its until bound (inclusive; the stream ends at the first candidate
strictly past until). -/
theorem claim_C5 (r : RRule) (fuel : Nat) (out : List Int) (fin : Bool)
    (r' : RRule) (h : rrStream r fuel = some (out, fin, r')) :
    ∀ t ∈ out, dtSec r.dtstart ≤ t ∧ t * 1000000000 ≤ r.untilNS :=
  runRRule_mem_bounds r fuel (initState r) out fin r' h

/-- Options of spec scenario 2: FREQ=MONTHLY;BYMONTHDAY=31;COUNT=4 from
2020-01-31T09:00:00Z. -/
def optsMonthly31 : ROption :=
  { defOpts ⟨2020, 1, 31, 9, 0, 0⟩ with
    freq := MONTHLY
    count := 4
    bymonthday := [31] }

/-- The rule of optsMonthly31. -/
def ruleMonthly31 : RRule := (NewRRule optsMonthly31).getD default

/-- C10: FREQ=MONTHLY;BYMONTHDAY=31;COUNT=4 from 2020-01-31T09:00:00Z
yields exactly January 31, March 31, May 31 and July 31 of 2020: the
months without a 31st day are skipped silently. -/
theorem claim_C10 :
    NewRRule optsMonthly31 = some ruleMonthly31 ∧
    ∀ g, 7 ≤ g → rrStream ruleMonthly31 g =
      some ([civilSec 2020 1 31 9 0 0, civilSec 2020 3 31 9 0 0,
        civilSec 2020 5 31 9 0 0, civilSec 2020 7 31 9 0 0], true,
        { ruleMonthly31 with len := 4 }) := by
  refine ⟨rfl, fun g hg => ?_⟩
  exact runRRule_fuel_mono 7 g ruleMonthly31 (initState ruleMonthly31)
    _ _ (by decide) hg

theorem claim_C10_witness :
    rrStream ruleMonthly31 7 =
      some ([civilSec 2020 1 31 9 0 0, civilSec 2020 3 31 9 0 0,
        civilSec 2020 5 31 9 0 0, civilSec 2020 7 31 9 0 0], true,
        { ruleMonthly31 with len := 4 }) :=
  claim_C10.2 7 (by norm_num)

theorem claim_C5_witness :
    dtSec ruleMonthly31.dtstart ≤ civilSec 2020 3 31 9 0 0 ∧
    civilSec 2020 3 31 9 0 0 * 1000000000 ≤ ruleMonthly31.untilNS :=
  claim_C5 ruleMonthly31 7
    [civilSec 2020 1 31 9 0 0, civilSec 2020 3 31 9 0 0,
      civilSec 2020 5 31 9 0 0, civilSec 2020 7 31 9 0 0] true
    { ruleMonthly31 with len := 4 } (by decide)
    (civilSec 2020 3 31 9 0 0) (by simp)

/-- Options accepted by validation whose BYEASTER offset drives the mask
write out of range. -/
def optsEaster300 : ROption :=
  { defOpts ⟨2020, 1, 1, 0, 0, 0⟩ with
    freq := YEARLY
    byeaster := [300] }

/-- The rule of optsEaster300. -/
def ruleEaster300 : RRule := (NewRRule optsEaster300).getD default

set_option maxRecDepth 10000 in
/-- C3: validation accepts BYEASTER=300 (it never checks Byeaster), but
rebuild writes eastermask at index easterYday+300, beyond the mask length
yearlen+7 — the Go runtime panic modelled by none: the iterator is not
total on every rule accepted by NewRRule. -/
theorem claim_C3 :
    validateBounds optsEaster300 = true ∧
    NewRRule optsEaster300 = some ruleEaster300 ∧
    365 + isLeap 2020 + 7 ≤ easterYday 2020 + 300 ∧
    buildInfo ruleEaster300 2020 1 = none ∧
    ∀ fuel, 1 ≤ fuel → rrStream ruleEaster300 fuel = none := by
  refine ⟨rfl, rfl, by decide, rfl, ?_⟩
  intro fuel hf
  obtain ⟨f, rfl⟩ : ∃ f, fuel = f + 1 := ⟨fuel - 1, by omega⟩
  rw [rrStream, runRRule]
  rw [show stepPeriod ruleEaster300 (initState ruleEaster300) = none
    from rfl]

theorem claim_C3_witness : rrStream ruleEaster300 1 = none :=
  claim_C3.2.2.2.2 1 (by norm_num)

/-- Options of a one-shot daily rule. -/
def optsDaily1 : ROption :=
  { defOpts ⟨2020, 1, 1, 0, 0, 0⟩ with
    freq := DAILY
    count := 1 }

/-- The rule of optsDaily1. -/
def ruleDaily1 : RRule := (NewRRule optsDaily1).getD default

/-- C1 is false as stated: iterating does change the RRule value — when
the iterator finishes, generate writes the emitted total into Len through
the shared pointer; here Len goes from 0 at construction to 1. -/
theorem claim_C1_cx :
    rrStream ruleDaily1 1 =
      some ([civilSec 2020 1 1 0 0 0], true, { ruleDaily1 with len := 1 }) ∧
    ruleDaily1.len = 0 ∧
    { ruleDaily1 with len := 1 } ≠ ruleDaily1 := by
  exact ⟨by decide, rfl, by decide⟩

/-- C1 (amended): iteration preserves every field of the rule except Len,
which generate sets to the running total when the iterator finishes. -/
theorem claim_C1 (r : RRule) (st : IterState) (fuel : Nat) (out : List Int)
    (fin : Bool) (r' : RRule)
    (h : runRRule r st fuel = some (out, fin, r')) :
    { r' with len := r.len } = r := by
  induction fuel generalizing st out fin r' with
  | zero =>
    rw [runRRule] at h
    injection h with h
    rw [show r' = r from (congrArg (fun q => q.2.2) h).symm]
  | succ f ih =>
    rw [runRRule] at h
    cases hsp : stepPeriod r st with
    | none => rw [hsp] at h; exact absurd h (by simp)
    | some po =>
      rw [hsp] at h
      cases po with
      | fin e total =>
        injection h with h
        rw [show r' = { r with len := total } from
          (congrArg (fun q => q.2.2) h).symm]
      | next e st' =>
        simp only [] at h
        cases hrec : runRRule r st' f with
        | none => rw [hrec] at h; exact absurd h (by simp)
        | some s =>
          rw [hrec] at h
          injection h with h
          rw [show r' = s.2.2 from (congrArg (fun q => q.2.2) h).symm]
          exact ih st' s.1 s.2.1 s.2.2 (by rw [hrec])

theorem claim_C1_witness :
    { { ruleDaily1 with len := 1 } with len := ruleDaily1.len } =
      ruleDaily1 :=
  claim_C1 ruleDaily1 (initState ruleDaily1) 1 [civilSec 2020 1 1 0 0 0]
    true { ruleDaily1 with len := 1 } (by decide)

/-- Options of an unbounded rule recurring every 400 years. -/
def optsYearly400 : ROption :=
  { defOpts ⟨2020, 1, 1, 0, 0, 0⟩ with
    freq := YEARLY
    interval := 400 }

/-- The rule of optsYearly400. -/
def ruleYearly400 : RRule := (NewRRule optsYearly400).getD default

set_option maxRecDepth 10000 in
/-- C2 is false as stated: with no until given, the iterator stops at the
default horizon start + (2^63-1) ns, about 292 years.  This rule denotes a
second occurrence on 2420-01-01 — a year within MAXYEAR whose January 1
passes every BY* filter and lies at or after the start — yet the stream
finishes after the single 2020 occurrence. -/
theorem claim_C2_cx :
    ruleYearly400.origOptions.untilTime = none ∧
    rrStream ruleYearly400 3 =
      some ([civilSec 2020 1 1 0 0 0], true,
        { ruleYearly400 with len := 1 }) ∧
    (2420 : Int) ≤ MAXYEAR ∧
    (buildInfo ruleYearly400 2420 1).map
      (fun info => !dayFiltered ruleYearly400 info 0) = some true ∧
    dtSec ruleYearly400.dtstart ≤ civilSec 2420 1 1 0 0 0 := by
  exact ⟨rfl, by decide, by decide, by decide, by decide⟩

/-- C2 (amended): an absent until is not unbounded up to MAXYEAR — NewRRule
replaces it with start + (2^63-1) ns (about 292 years), and every output
stays at or below that substituted horizon. -/
theorem claim_C2 (arg : ROption) (r : RRule) (h : NewRRule arg = some r)
    (hu : arg.untilTime = none) :
    r.untilNS = dtSec arg.dtstart * 1000000000 + (2 ^ 63 - 1) ∧
    ∀ (fuel : Nat) (out : List Int) (fin : Bool) (r' : RRule),
      rrStream r fuel = some (out, fin, r') →
      ∀ t ∈ out,
        t * 1000000000 ≤ dtSec arg.dtstart * 1000000000 + (2 ^ 63 - 1) := by
  have huntil : r.untilNS = dtSec arg.dtstart * 1000000000 + (2 ^ 63 - 1) := by
    unfold NewRRule at h
    split at h
    · injection h with h'
      subst h'
      simp [hu]
    · exact absurd h (by simp)
  refine ⟨huntil, fun fuel out fin r' hrun t ht => ?_⟩
  have hb := runRRule_mem_bounds r fuel (initState r) out fin r' hrun t ht
  rw [← huntil]
  exact hb.2

theorem claim_C2_witness :
    ruleYearly400.untilNS =
      dtSec optsYearly400.dtstart * 1000000000 + (2 ^ 63 - 1) :=
  (claim_C2 optsYearly400 ruleYearly400 rfl rfl).1

theorem insertSorted_eq (x : Int) (l : List Int) :
    insertSorted x l = List.orderedInsert (· ≤ ·) x l := by
  induction l with
  | nil => rfl
  | cons y ys ih => simp only [insertSorted, List.orderedInsert, ih]

theorem sortInts_eq (l : List Int) :
    sortInts l = List.insertionSort (· ≤ ·) l := by
  induction l with
  | nil => rfl
  | cons x xs ih => simp only [sortInts, List.insertionSort, ih, insertSorted_eq]

theorem sortInts_sorted (l : List Int) : (sortInts l).Sorted (· ≤ ·) := by
  rw [sortInts_eq]
  exact List.sorted_insertionSort _ l

theorem sortInts_perm (l : List Int) : (sortInts l).Perm l := by
  rw [sortInts_eq]
  exact List.perm_insertionSort _ l

theorem sortInts_mem (l : List Int) (t : Int) : t ∈ sortInts l ↔ t ∈ l :=
  (sortInts_perm l).mem_iff

theorem sortInts_nodup (l : List Int) (h : l.Nodup) : (sortInts l).Nodup :=
  (sortInts_perm l).nodup_iff.mpr h

/-- The spec's BYSETPOS selection for one position: split the position by
divmod against the time-set size (the shifted divmod for positive
positions), index the surviving days Python-style — none when out of
range — and combine the day with the chosen time. -/
def setposCandidate (r : RRule) (info : Info) (timeset surv : List Int)
    (pos : Int) : Option Int :=
  let dt := if pos < 0 then divmod pos timeset.length
    else divmod (pos - 1) timeset.length
  (pySubscript surv dt.1).map
    (fun i => (info.fday + i) * 86400 + idx timeset dt.2)

theorem dedupAppend_mem (acc : List Int) (x t : Int) :
    t ∈ (if acc.contains x = true then acc else acc ++ [x]) ↔
      t ∈ acc ∨ t = x := by
  split
  · next hc =>
    constructor
    · exact fun h => Or.inl h
    · rintro (h | rfl)
      · exact h
      · exact List.mem_of_elem_eq_true hc
  · simp [List.mem_append]

theorem dedupAppend_nodup (acc : List Int) (x : Int) (h : acc.Nodup) :
    (if acc.contains x = true then acc else acc ++ [x]).Nodup := by
  split
  · exact h
  · next hc =>
    rw [List.nodup_append]
    refine ⟨h, List.nodup_singleton _, ?_⟩
    intro a ha hb
    simp only [List.mem_singleton] at hb
    subst hb
    exact hc (List.elem_eq_true_of_mem ha)

theorem setposStep_mem (r : RRule) (info : Info) (timeset surv : List Int)
    (acc : List Int) (pos t : Int) :
    t ∈ setposStep r info timeset surv acc pos ↔
      t ∈ acc ∨ setposCandidate r info timeset surv pos = some t := by
  simp only [setposStep, setposCandidate]
  cases hp : pySubscript surv
      (if pos < 0 then divmod pos timeset.length
        else divmod (pos - 1) timeset.length).1 with
  | none => simp
  | some i =>
    simp only [Option.map_some', Option.some_inj]
    rw [dedupAppend_mem]
    exact or_congr Iff.rfl eq_comm

theorem setposStep_nodup (r : RRule) (info : Info) (timeset surv : List Int)
    (acc : List Int) (pos : Int) (h : acc.Nodup) :
    (setposStep r info timeset surv acc pos).Nodup := by
  simp only [setposStep]
  cases hp : pySubscript surv
      (if pos < 0 then divmod pos timeset.length
        else divmod (pos - 1) timeset.length).1 with
  | none => exact h
  | some i => exact dedupAppend_nodup acc _ h

theorem setposFold_mem (r : RRule) (info : Info) (timeset surv : List Int) :
    ∀ (ps acc : List Int) (t : Int),
      t ∈ ps.foldl (setposStep r info timeset surv) acc ↔
        t ∈ acc ∨ ∃ pos ∈ ps, setposCandidate r info timeset surv pos = some t := by
  intro ps
  induction ps with
  | nil => simp
  | cons p ps ih =>
    intro acc t
    rw [List.foldl_cons, ih, setposStep_mem]
    constructor
    · rintro ((h | h) | ⟨pos, hm, hc⟩)
      · exact Or.inl h
      · exact Or.inr ⟨p, List.mem_cons_self p ps, h⟩
      · exact Or.inr ⟨pos, List.mem_cons_of_mem p hm, hc⟩
    · rintro (h | ⟨pos, hm, hc⟩)
      · exact Or.inl (Or.inl h)
      · rcases List.mem_cons.mp hm with rfl | hm
        · exact Or.inl (Or.inr hc)
        · exact Or.inr ⟨pos, hm, hc⟩

theorem setposFold_nodup (r : RRule) (info : Info) (timeset surv : List Int) :
    ∀ (ps acc : List Int), acc.Nodup →
      (ps.foldl (setposStep r info timeset surv) acc).Nodup := by
  intro ps
  induction ps with
  | nil => intro acc h; exact h
  | cons p ps ih =>
    intro acc h
    rw [List.foldl_cons]
    exact ih _ (setposStep_nodup r info timeset surv acc p h)

/-- C9: with BYSETPOS and a non-empty time-set, the per-period batch is
sorted ascending, duplicate-free, and contains exactly the date-times
selected by some position via the divmod split and Python-style
subscripting of the surviving days (out-of-range positions silently
skipped). -/
theorem claim_C9 (r : RRule) (info : Info) (timeset surv : List Int)
    (hts : timeset ≠ []) :
    (setposList r info timeset surv).Sorted (· ≤ ·) ∧
    (setposList r info timeset surv).Nodup ∧
    ∀ t, t ∈ setposList r info timeset surv ↔
      ∃ pos ∈ r.bysetpos,
        setposCandidate r info timeset surv pos = some t := by
  refine ⟨sortInts_sorted _, sortInts_nodup _ ?_, fun t => ?_⟩
  · exact setposFold_nodup r info timeset surv r.bysetpos [] List.nodup_nil
  · rw [setposList, sortInts_mem, setposFold_mem]
    simp

/-- Options of spec scenario 5: FREQ=MONTHLY;BYDAY=MO,TU,WE,TH,FR;
BYSETPOS=-1;COUNT=3 from 2020-01-01. -/
def optsSetpos : ROption :=
  { defOpts ⟨2020, 1, 1, 0, 0, 0⟩ with
    freq := MONTHLY
    count := 3
    byweekday := [MO, TU, WE, TH, FR]
    bysetpos := [-1] }

/-- The rule of optsSetpos. -/
def ruleSetpos : RRule := (NewRRule optsSetpos).getD default

/-- The January 2020 tables of ruleSetpos. -/
def infoSetpos : Info := (buildInfo ruleSetpos 2020 1).getD default

theorem claim_C9_witness :
    (setposList ruleSetpos infoSetpos [32400] [0, 5, 10]).Sorted (· ≤ ·) ∧
    (setposList ruleSetpos infoSetpos [32400] [0, 5, 10]).Nodup ∧
    (civilSec 2020 1 11 9 0 0 ∈ setposList ruleSetpos infoSetpos
        [32400] [0, 5, 10] ↔
      ∃ pos ∈ ruleSetpos.bysetpos,
        setposCandidate ruleSetpos infoSetpos [32400] [0, 5, 10] pos =
          some (civilSec 2020 1 11 9 0 0)) := by
  have h := claim_C9 ruleSetpos infoSetpos [32400] [0, 5, 10] (by decide)
  exact ⟨h.1, h.2.1, h.2.2 (civilSec 2020 1 11 9 0 0)⟩

/-- Emission with a positive remaining count produces exactly the n-prefix
of emission with the count bound disabled: the finished flag additionally
fires when the unbounded emission reaches n candidates, and an unfinished
counted emission has consumed exactly the unbounded emission with the
count reduced by its length. -/
theorem emitLoop_count (r : RRule) :
    ∀ (batch : List Int) (n t1 t2 : Int), 0 < n →
      (emitLoop r batch n t1).1 = (emitLoop r batch 0 t2).1.take n.toNat ∧
      ((emitLoop r batch n t1).2.2.2 = true ↔
        ((emitLoop r batch 0 t2).2.2.2 = true ∨
          n ≤ ((emitLoop r batch 0 t2).1.length : Int))) ∧
      ((emitLoop r batch n t1).2.2.2 = false →
        (emitLoop r batch n t1).1 = (emitLoop r batch 0 t2).1 ∧
        (emitLoop r batch n t1).2.1 =
          n - ((emitLoop r batch 0 t2).1.length : Int)) := by
  intro batch
  induction batch with
  | nil =>
    intro n t1 t2 hn
    refine ⟨by simp [emitLoop], ?_, ?_⟩
    · simp only [emitLoop, List.length_nil]
      constructor
      · intro h
        exact absurd h (by simp)
      · rintro (h | h)
        · exact absurd h (by simp)
        · omega
    · intro _
      simp [emitLoop]
  | cons res rest ih =>
    intro n t1 t2 hn
    by_cases h1 : res * 1000000000 > r.untilNS
    · refine ⟨?_, ?_, ?_⟩
      · simp [emitLoop, if_pos h1]
      · simp [emitLoop, if_pos h1]
      · intro hfin
        rw [emitLoop, if_pos h1] at hfin
        exact absurd hfin (by simp)
    · by_cases h2 : res < dtSec r.dtstart
      · have e1 : emitLoop r (res :: rest) n t1 = emitLoop r rest n t1 := by
          rw [emitLoop, if_neg h1, if_neg (not_not_intro h2)]
        have e2 : emitLoop r (res :: rest) 0 t2 = emitLoop r rest 0 t2 := by
          rw [emitLoop, if_neg h1, if_neg (not_not_intro h2)]
        rw [e1, e2]
        exact ih n t1 t2 hn
      · have hb1 : (n != 0) = true := bne_iff_ne.mpr (by omega)
        have hb0 : ((0 : Int) != 0) = false := by decide
        have e2 : emitLoop r (res :: rest) 0 t2 =
            (res :: (emitLoop r rest 0 (t2 + 1)).1,
              (emitLoop r rest 0 (t2 + 1)).2) := by
          rw [emitLoop, if_neg h1, if_pos h2, hb0]
          simp
        by_cases h3 : n = 1
        · subst h3
          have e1 : emitLoop r (res :: rest) 1 t1 =
              ([res], 0, t1 + 1, true) := by
            rw [emitLoop, if_neg h1, if_pos h2, hb1]
            norm_num
          rw [e1, e2]
          refine ⟨by simp, ?_, ?_⟩
          · simp only [List.length_cons]
            constructor
            · intro _
              right
              push_cast
              omega
            · intro _
              trivial
          · intro hfin
            exact absurd hfin (by simp)
        · have hb3 : (n - 1 == 0) = false := by
            rw [beq_eq_false_iff_ne]
            omega
          have e1 : emitLoop r (res :: rest) n t1 =
              (res :: (emitLoop r rest (n - 1) (t1 + 1)).1,
                (emitLoop r rest (n - 1) (t1 + 1)).2) := by
            rw [emitLoop, if_neg h1, if_pos h2, hb1, hb3]
            simp
          rw [e1, e2]
          obtain ⟨ih1, ih2, ih3⟩ := ih (n - 1) (t1 + 1) (t2 + 1) (by omega)
          have hnat : n.toNat = (n - 1).toNat + 1 := by omega
          refine ⟨?_, ?_, ?_⟩
          · simp only [hnat, List.take_succ_cons]
            rw [ih1]
          · simp only [List.length_cons]
            rw [ih2]
            constructor
            · rintro (h | h)
              · exact Or.inl h
              · right
                push_cast
                omega
            · rintro (h | h)
              · exact Or.inl h
              · right
                push_cast at h ⊢
                omega
          · intro hfin
            simp only [] at hfin
            obtain ⟨ha, hb⟩ := ih3 hfin
            refine ⟨by rw [ha], ?_⟩
            simp only [List.length_cons]
            push_cast
            omega

/-- Emission with the count bound disabled leaves the count at zero. -/
theorem emitLoop_zero_count (r : RRule) :
    ∀ (batch : List Int) (total : Int),
      (emitLoop r batch 0 total).2.1 = 0 := by
  intro batch
  induction batch with
  | nil => intro total; rfl
  | cons res rest ih =>
    intro total
    rw [emitLoop]
    split
    · rfl
    · split
      · rw [show ((0 : Int) != 0) = false from rfl]
        simp only [Bool.false_eq_true, if_false]
        exact ih (total + 1)
      · exact ih total

/-- The iterator with a positive remaining count yields exactly the
n-prefix of the iterator with the count bound disabled, over the same
cursor and fuel. -/
theorem runRRule_count (r : RRule) (fuel : Nat) :
    ∀ (c : Cursor) (n t1 t2 : Int) (out : List Int) (fin : Bool)
      (r' : RRule), 0 < n →
      runRRule r ⟨c, 0, t2⟩ fuel = some (out, fin, r') →
      (runRRule r ⟨c, n, t1⟩ fuel).map (fun s => s.1) =
        some (out.take n.toNat) := by
  induction fuel with
  | zero =>
    intro c n t1 t2 out fin r' hn h
    rw [runRRule] at h ⊢
    injection h with h
    rw [show out = [] from (congrArg Prod.fst h).symm]
    simp
  | succ f ih =>
    intro c n t1 t2 out fin r' hn h
    rw [runRRule] at h ⊢
    rw [stepPeriod] at h ⊢
    cases hpb : periodBatch r c with
    | none => rw [hpb] at h; exact absurd h (by simp)
    | some bp =>
      obtain ⟨batch, filtered⟩ := bp
      rw [hpb] at h
      simp only [] at h ⊢
      obtain ⟨hc1, hc2, hc3⟩ := emitLoop_count r batch n t1 t2 hn
      have hz := emitLoop_zero_count r batch t2
      by_cases hfin0 : (emitLoop r batch 0 t2).2.2.2 = true
      · rw [if_pos hfin0] at h
        injection h with h
        rw [show out = (emitLoop r batch 0 t2).1 from
          (congrArg Prod.fst h).symm]
        rw [if_pos (hc2.mpr (Or.inl hfin0))]
        simp [hc1]
      · rw [if_neg hfin0] at h
        by_cases hfinn : (emitLoop r batch n t1).2.2.2 = true
        · have hlen : n ≤ ((emitLoop r batch 0 t2).1.length : Int) := by
            rcases hc2.mp hfinn with hl | hl
            · exact absurd hl hfin0
            · exact hl
          rw [if_pos hfinn]
          cases hsc : stepCursor r c filtered with
          | none => rw [hsc] at h; exact absurd h (by simp)
          | some so =>
            rw [hsc] at h
            cases so with
            | fin =>
              injection h with h
              rw [show out = (emitLoop r batch 0 t2).1 from
                (congrArg Prod.fst h).symm]
              simp [hc1]
            | next c' =>
              simp only [] at h
              cases hrec : runRRule r
                  ⟨c', (emitLoop r batch 0 t2).2.1,
                    (emitLoop r batch 0 t2).2.2.1⟩ f with
              | none => rw [hrec] at h; exact absurd h (by simp)
              | some s =>
                rw [hrec] at h
                injection h with h
                rw [show out = (emitLoop r batch 0 t2).1 ++ s.1 from
                  (congrArg Prod.fst h).symm]
                simp only [List.take_append_eq_append_take,
                  show n.toNat - (emitLoop r batch 0 t2).1.length = 0 from
                    by omega,
                  List.take_zero, List.append_nil]
                simp [hc1]
        · obtain ⟨heq, hcnt⟩ := hc3 (by simp [hfinn])
          have hgt : ((emitLoop r batch 0 t2).1.length : Int) < n := by
            by_contra hle
            exact hfinn (hc2.mpr (Or.inr (by omega)))
          rw [if_neg hfinn]
          cases hsc : stepCursor r c filtered with
          | none => rw [hsc] at h; exact absurd h (by simp)
          | some so =>
            rw [hsc] at h
            cases so with
            | fin =>
              injection h with h
              rw [show out = (emitLoop r batch 0 t2).1 from
                (congrArg Prod.fst h).symm]
              rw [List.take_of_length_le (by omega)]
              simp [heq]
            | next c' =>
              simp only [] at h ⊢
              rw [hz] at h
              cases hrec : runRRule r
                  ⟨c', 0, (emitLoop r batch 0 t2).2.2.1⟩ f with
              | none => rw [hrec] at h; exact absurd h (by simp)
              | some s =>
                rw [hrec] at h
                injection h with h
                rw [show out = (emitLoop r batch 0 t2).1 ++ s.1 from
                  (congrArg Prod.fst h).symm]
                have hihm := ih c' (n - ((emitLoop r batch 0 t2).1.length : Int))
                  (emitLoop r batch n t1).2.2.1
                  (emitLoop r batch 0 t2).2.2.1 s.1 s.2.1 s.2.2
                  (by omega) (by rw [hrec])
                rw [hcnt]
                obtain ⟨s', hs', hs1⟩ := Option.map_eq_some'.mp hihm
                rw [hs']
                simp only [Option.map_some']
                rw [List.take_append_eq_append_take]
                rw [List.take_of_length_le (by omega)]
                rw [show n.toNat - (emitLoop r batch 0 t2).1.length =
                  (n - ((emitLoop r batch 0 t2).1.length : Int)).toNat
                  from by omega]
                rw [heq, hs1]

/-- C6: a rule with count = n > 0 yields the n-prefix of the same rule
iterated with the count bound disabled — hence at most n occurrences, and
exactly n whenever the unbounded run yields at least n; with count = 0 the
stream is not truncated by count at all. -/
theorem claim_C6 (r : RRule) (fuel : Nat) (n : Int) (hn : r.count = n)
    (out : List Int) (fin : Bool) (r' : RRule)
    (h0 : runRRule r { initState r with count := 0 } fuel =
      some (out, fin, r')) :
    (0 < n →
      (rrStream r fuel).map (fun s => s.1) = some (out.take n.toNat) ∧
      (out.take n.toNat).length ≤ n.toNat ∧
      (n.toNat ≤ out.length → ((out.take n.toNat).length : Int) = n)) ∧
    (n = 0 → rrStream r fuel = some (out, fin, r')) := by
  constructor
  · intro hpos
    have hmap := runRRule_count r fuel (initState r).cur n 0 0 out fin r'
      hpos h0
    refine ⟨?_, ?_, ?_⟩
    · rw [rrStream]
      rw [show initState r = ⟨(initState r).cur, n, 0⟩ from by
        rw [← hn]; rfl]
      exact hmap
    · simp [List.length_take]
    · intro hge
      simp only [List.length_take]
      omega
  · intro h0n
    rw [rrStream]
    rw [show initState r = { initState r with count := 0 } from by
      rw [show (0 : Int) = r.count from by omega]
      rfl]
    exact h0

theorem claim_C6_witness :
    (rrStream ruleMonthly31 7).map (fun s => s.1) =
      some ([civilSec 2020 1 31 9 0 0, civilSec 2020 3 31 9 0 0,
        civilSec 2020 5 31 9 0 0, civilSec 2020 7 31 9 0 0].take
          (4 : Int).toNat) :=
  ((claim_C6 ruleMonthly31 7 4 rfl
      [civilSec 2020 1 31 9 0 0, civilSec 2020 3 31 9 0 0,
        civilSec 2020 5 31 9 0 0, civilSec 2020 7 31 9 0 0] false
      { ruleMonthly31 with len := ruleMonthly31.len }
      (by decide)).1 (by norm_num)).1

theorem isLeap_cases (y : Int) : isLeap y = 0 ∨ isLeap y = 1 := by
  unfold isLeap
  split <;> simp

theorem daysToYear_succ (y : Int) :
    daysToYear (y + 1) = daysToYear y + 365 + isLeap y := by
  unfold daysToYear isLeap
  rw [show y + 1 - 1 = y from by ring]
  split
  · next h =>
    simp only [beq_iff_eq, bne_iff_ne] at h
    rcases h with ⟨h4, h100 | h400⟩ <;> omega
  · next h =>
    simp only [beq_iff_eq, bne_iff_ne, not_and, not_or,
      Decidable.not_not] at h
    by_cases h4 : y % 4 = 0
    · rcases h h4 with ⟨h100, h400⟩
      omega
    · omega

theorem daysToYear_mono {y y' : Int} (h : y ≤ y') :
    daysToYear y ≤ daysToYear y' := by
  unfold daysToYear
  omega

theorem mrange_mono_nat (l : List Int)
    (hl : l = M365RANGE ∨ l = M366RANGE) :
    ∀ b : Nat, b ≤ 12 → ∀ a : Nat, a ≤ b → l.getD a 0 ≤ l.getD b 0 := by
  rcases hl with rfl | rfl <;> decide

theorem mrangeOf_cases (y : Int) :
    mrangeOf y = M365RANGE ∨ mrangeOf y = M366RANGE := by
  unfold mrangeOf
  split
  · exact Or.inr rfl
  · exact Or.inl rfl

theorem mrangeOf_mono (y : Int) {j k : Int} (h0 : 0 ≤ j) (hjk : j ≤ k)
    (hk : k ≤ 12) : idx (mrangeOf y) j ≤ idx (mrangeOf y) k := by
  unfold idx
  rw [if_neg (by omega), if_neg (by omega)]
  exact mrange_mono_nat (mrangeOf y) (mrangeOf_cases y) k.toNat (by omega)
    j.toNat (by omega)

theorem mrangeOf_zero (y : Int) : idx (mrangeOf y) 0 = 0 := by
  rcases mrangeOf_cases y with h | h <;> simp [idx, h, M365RANGE, M366RANGE]

theorem mrangeOf_last (y : Int) : idx (mrangeOf y) 12 = 365 + isLeap y := by
  unfold mrangeOf
  rcases isLeap_cases y with h | h <;> rw [h] <;> decide

theorem daysIn_bounds (y : Int) {m : Int} (h1 : 1 ≤ m) (h2 : m ≤ 12) :
    28 ≤ daysIn m y ∧ daysIn m y ≤ 31 := by
  have key : ∀ l : List Int, l = M365RANGE ∨ l = M366RANGE →
      ∀ a : Nat, a ≤ 11 →
        28 ≤ l.getD (a + 1) 0 - l.getD a 0 ∧
          l.getD (a + 1) 0 - l.getD a 0 ≤ 31 := by
    rintro l (rfl | rfl) <;> decide
  unfold daysIn idx
  rw [if_neg (by omega), if_neg (by omega)]
  have hmt : m.toNat = (m - 1).toNat + 1 := by omega
  rw [hmt]
  exact key (mrangeOf y) (mrangeOf_cases y) (m - 1).toNat (by omega)

theorem absDayOf_roll (y m : Int) (d : Int) (h1 : 1 ≤ m) (h2 : m ≤ 12) :
    absDayOf y m d = absDayOf y m (d - daysIn m y) + daysIn m y := by
  unfold absDayOf ydayOf daysIn
  ring

theorem absDayOf_next_month {y m d : Int} (h1 : 1 ≤ m) (h2 : m ≤ 11) :
    absDayOf y (m + 1) (d - daysIn m y) = absDayOf y m d := by
  unfold absDayOf ydayOf daysIn
  have : m + 1 - 1 = m := by ring
  rw [this]
  ring

theorem mrangeOf_eleven (y : Int) : idx (mrangeOf y) 11 = 334 + isLeap y := by
  unfold mrangeOf
  rcases isLeap_cases y with h | h <;> rw [h] <;> decide

theorem absDayOf_next_year {y d : Int} :
    absDayOf (y + 1) 1 (d - daysIn 12 y) = absDayOf y 12 d := by
  unfold absDayOf ydayOf daysIn
  norm_num
  rw [daysToYear_succ, mrangeOf_zero, mrangeOf_last, mrangeOf_eleven]
  ring

set_option maxRecDepth 20000 in
theorem WDAYMASK_drop_getD :
    ∀ k : Nat, k ≤ 6 → ∀ n : Nat, n ≤ 378 →
      (WDAYMASK.drop k).getD n 0 = (((k + n) % 7 : Nat) : Int) := by
  decide

theorem intRangeAux_mem :
    ∀ (n : Nat) (a t : Int), t ∈ intRangeAux n a ↔ a ≤ t ∧ t < a + n := by
  intro n
  induction n with
  | zero => intro a t; simp [intRangeAux]
  | succ m ih =>
    intro a t
    simp only [intRangeAux, List.mem_cons, ih]
    push_cast
    omega

theorem intRange_mem {a b t : Int} :
    t ∈ intRange a b ↔ a ≤ t ∧ t < b := by
  unfold intRange
  rw [intRangeAux_mem]
  omega

theorem intRangeAux_pairwise :
    ∀ (n : Nat) (a : Int), (intRangeAux n a).Pairwise (· < ·) := by
  intro n
  induction n with
  | zero => intro a; simp [intRangeAux]
  | succ m ih =>
    intro a
    rw [intRangeAux, List.pairwise_cons]
    refine ⟨?_, ih (a + 1)⟩
    intro t ht
    rw [intRangeAux_mem] at ht
    omega

theorem intRange_pairwise (a b : Int) :
    (intRange a b).Pairwise (· < ·) :=
  intRangeAux_pairwise _ a

theorem idx_mem (l : List Int) (k : Int) (h0 : 0 ≤ k)
    (h1 : k.toNat < l.length) : idx l k ∈ l := by
  unfold idx
  rw [if_neg (by omega)]
  rw [List.getD_eq_getElem l 0 h1]
  exact List.getElem_mem h1

theorem pySubscript_mem {l : List Int} {k x : Int}
    (h : pySubscript l k = some x) : x ∈ l := by
  unfold pySubscript at h
  simp only [] at h
  split at h
  · split at h
    · next hin =>
      injection h with h
      subst h
      rw [List.getD_eq_getElem l 0 hin.2]
      exact List.getElem_mem hin.2
    · exact absurd h (by simp)
  · split at h
    · next hin =>
      injection h with h
      subst h
      rw [List.getD_eq_getElem l 0 hin.2]
      exact List.getElem_mem hin.2
    · exact absurd h (by simp)

theorem emitLoop_sublist (r : RRule) :
    ∀ (batch : List Int) (count total : Int),
      (emitLoop r batch count total).1.Sublist batch := by
  intro batch
  induction batch with
  | nil => intro count total; simp [emitLoop]
  | cons res rest ih =>
    intro count total
    rw [emitLoop]
    split
    · simp
    · split
      · split
        · split
          · simp
          · exact (ih (count - 1) (total + 1)).cons₂ res
        · exact (ih count (total + 1)).cons₂ res
      · exact (ih count total).cons res

theorem sortInts_map_add_sorted (c : Int) (l : List Int)
    (h : l.Sorted (· ≤ ·)) :
    (l.map (fun tod => c + tod)).Sorted (· ≤ ·) := by
  exact List.Pairwise.map _ (fun a b hab => by omega) h

/-- The plain emission batch: ascending days crossed with a sorted bounded
time-set is sorted. -/
theorem plain_batch_sorted (fday : Int) :
    ∀ (days : List Int) (timeset : List Int),
      days.Pairwise (· < ·) → timeset.Sorted (· ≤ ·) →
      (∀ t ∈ timeset, 0 ≤ t ∧ t < 86400) →
      ((days.map (fun i => timeset.map
        (fun tod => (fday + i) * 86400 + tod))).flatten).Sorted (· ≤ ·) := by
  intro days
  induction days with
  | nil => intro timeset _ _ _; simp
  | cons d ds ih =>
    intro timeset hd hts htb
    simp only [List.map_cons, List.flatten_cons]
    refine List.pairwise_append.2
      ⟨sortInts_map_add_sorted _ _ hts, ih timeset hd.of_cons hts htb, ?_⟩
    intro x hx y hy
    simp only [List.mem_map] at hx
    obtain ⟨tod, htod, rfl⟩ := hx
    simp only [List.mem_flatten, List.mem_map] at hy
    obtain ⟨blk, ⟨i, hi, rfl⟩, hyblk⟩ := hy
    simp only [List.mem_map] at hyblk
    obtain ⟨tod', htod', rfl⟩ := hyblk
    have hdi : d < i := (List.pairwise_cons.mp hd).1 i hi
    have h1 := htb tod htod
    have h2 := htb tod' htod'
    omega

theorem plain_batch_mem (fday : Int) (days : List Int) (timeset : List Int)
    (t : Int)
    (h : t ∈ (days.map (fun i => timeset.map
      (fun tod => (fday + i) * 86400 + tod))).flatten) :
    ∃ i ∈ days, ∃ tod ∈ timeset, t = (fday + i) * 86400 + tod := by
  simp only [List.mem_flatten, List.mem_map] at h
  obtain ⟨blk, ⟨i, hi, rfl⟩, hblk⟩ := h
  simp only [List.mem_map] at hblk
  obtain ⟨tod, htod, rfl⟩ := hblk
  exact ⟨i, hi, tod, htod, rfl⟩

/-- Proof-side abbreviation: the absolute day number of the cursor's date. -/
def curAbs (c : Cursor) : Int := absDayOf c.year c.month c.day

/-- Proof-side: the lower end (inclusive, seconds of day) of the time-of-day
window the cursor's time-set lies in, per frequency. -/
def todLo (r : RRule) (c : Cursor) : Int :=
  if r.freq == HOURLY then c.hour * 3600
  else if r.freq == MINUTELY then c.hour * 3600 + c.minute * 60
  else if r.freq == SECONDLY then c.hour * 3600 + c.minute * 60 + c.second
  else 0

/-- Proof-side: the upper end (exclusive) of the cursor's time-of-day
window. -/
def todHi (r : RRule) (c : Cursor) : Int :=
  if r.freq == HOURLY then c.hour * 3600 + 3600
  else if r.freq == MINUTELY then c.hour * 3600 + c.minute * 60 + 60
  else if r.freq == SECONDLY then c.hour * 3600 + c.minute * 60 + c.second + 1
  else 86400

/-- Proof-side: the cursor invariant the frequency stepper maintains: the
components the active frequency reads are in range, the WEEKLY weekday cache
matches the date, and the time-set is sorted inside the cursor's time-of-day
window. -/
def CurInv (r : RRule) (c : Cursor) : Prop :=
  (r.freq = MONTHLY → 1 ≤ c.month ∧ c.month ≤ 12) ∧
  (WEEKLY ≤ r.freq → 1 ≤ c.month ∧ c.month ≤ 12 ∧ 1 ≤ c.day ∧
    c.day ≤ daysIn c.month c.year) ∧
  (r.freq = WEEKLY → c.weekday = pyDow (curAbs c)) ∧
  (HOURLY ≤ r.freq → 0 ≤ c.hour ∧ c.hour < 24) ∧
  (MINUTELY ≤ r.freq → 0 ≤ c.minute ∧ c.minute < 60) ∧
  (SECONDLY ≤ r.freq → 0 ≤ c.second ∧ c.second < 60) ∧
  c.timeset.Sorted (· ≤ ·) ∧
  (∀ t ∈ c.timeset, todLo r c ≤ t ∧ t < todHi r c)

/-- Proof-side: the facts about a constructed rule the monotonicity proof
uses: a positive interval, a frequency among the seven constants, a weekday
constant for WKST, and in-range time lists. -/
def ValidRule (r : RRule) : Prop :=
  1 ≤ r.interval ∧ 0 ≤ r.freq ∧ r.freq ≤ SECONDLY ∧
  0 ≤ r.wkst ∧ r.wkst < 7 ∧
  (∀ v ∈ r.byhour, 0 ≤ v ∧ v < 24) ∧
  (∀ v ∈ r.byminute, 0 ≤ v ∧ v < 60) ∧
  (∀ v ∈ r.bysecond, 0 ≤ v ∧ v < 60)

/-- The data-model side conditions on an option record: the frequency is one
of the seven constants, the start is a `time.Date` result, and WKST is one
of the weekday constants. -/
def GoodOpts (arg : ROption) : Prop :=
  0 ≤ arg.freq ∧ arg.freq ≤ SECONDLY ∧ validDT arg.dtstart ∧
  0 ≤ arg.wkst.weekday ∧ arg.wkst.weekday < 7

/-- The gap (1..7 days) from a day with weekday `wd` to the next day with
weekday `wkst`. -/
def wGap (wd wkst : Int) : Int :=
  if pymod (wkst - wd) 7 == 0 then 7 else pymod (wkst - wd) 7

/-- Proof-side: a lower bound (in seconds) on every candidate of the
cursor's period. -/
def periodLo (r : RRule) (c : Cursor) : Int :=
  if r.freq == YEARLY then daysToYear c.year * 86400
  else if r.freq == MONTHLY then
    (daysToYear c.year + idx (mrangeOf c.year) (c.month - 1)) * 86400
  else curAbs c * 86400 + todLo r c

/-- Proof-side: a strict upper bound (in seconds) on every candidate of the
cursor's period; the stepper never moves the next period's lower bound below
it. -/
def periodHi (r : RRule) (c : Cursor) : Int :=
  if r.freq == YEARLY then daysToYear (c.year + 1) * 86400
  else if r.freq == MONTHLY then
    (daysToYear c.year + idx (mrangeOf c.year) c.month) * 86400
  else if r.freq == WEEKLY then
    (curAbs c + wGap (pyDow (curAbs c)) r.wkst) * 86400
  else if r.freq == DAILY then (curAbs c + 1) * 86400
  else curAbs c * 86400 + todHi r c

theorem ydayOf_bounds {y m d : Int} (h1 : 1 ≤ m) (h2 : m ≤ 12) (h3 : 1 ≤ d)
    (h4 : d ≤ daysIn m y) :
    0 ≤ ydayOf y m d ∧ ydayOf y m d < 365 + isLeap y := by
  unfold ydayOf
  have hz := mrangeOf_zero y
  have ha := mrangeOf_mono y (j := 0) (k := m - 1) (by omega) (by omega)
    (by omega)
  have hb := mrangeOf_mono y (j := m) (k := 12) (by omega) (by omega)
    (by omega)
  have hl := mrangeOf_last y
  unfold daysIn at h4
  omega

theorem weeklyEnd_ge (wdm : List Int) (wkst : Int) :
    ∀ (f : Nat) (i : Int), i ≤ weeklyEnd wdm wkst f i := by
  intro f
  induction f with
  | zero => intro i; simp [weeklyEnd]
  | succ m ih =>
    intro i
    rw [weeklyEnd]
    split
    · omega
    · have := ih (i + 1); omega

theorem weeklyEnd_le_match (wdm : List Int) (wkst : Int) :
    ∀ (f : Nat) (i k : Int), 1 ≤ k → k ≤ (f : Int) →
      idx wdm (i + k) = wkst →
      weeklyEnd wdm wkst f i ≤ i + k := by
  intro f
  induction f with
  | zero =>
    intro i k h1 h2 _
    simp only [Nat.cast_zero] at h2
    omega
  | succ m ih =>
    intro i k h1 h2 hm
    rw [weeklyEnd]
    split
    · omega
    · next hne =>
      have hk1 : k ≠ 1 := by
        intro he
        subst he
        exact hne (by simp [hm])
      have h2' : k - 1 ≤ (m : Int) := by
        push_cast at h2 ⊢
        omega
      have := ih (i + 1) (k - 1) (by omega) h2'
        (by rw [show i + 1 + (k - 1) = i + k from by ring]; exact hm)
      omega

theorem idx_wdaymask {ywd j : Int} (h1 : 0 ≤ ywd) (h2 : ywd ≤ 6)
    (h3 : 0 ≤ j) (h4 : j ≤ 378) :
    idx (WDAYMASK.drop ywd.toNat) j = pymod (ywd + j) 7 := by
  unfold idx
  rw [if_neg (by omega)]
  rw [WDAYMASK_drop_getD ywd.toNat (by omega) j.toNat (by omega)]
  unfold pymod
  push_cast
  omega

theorem mrange_select (y : Int) :
    (if (365 + isLeap y) == 365 then M365RANGE else M366RANGE) =
      mrangeOf y := by
  unfold mrangeOf
  rcases isLeap_cases y with h | h <;> rw [h] <;> decide

theorem buildInfo_fields {r : RRule} {year month : Int} {info : Info}
    (h : buildInfo r year month = some info) :
    info.yearlen = 365 + isLeap year ∧
    info.nextyearlen = 365 + isLeap (year + 1) ∧
    info.fday = daysToYear year ∧
    info.mrange = mrangeOf year ∧
    info.wdaymask = WDAYMASK.drop (pyDow (daysToYear year)).toNat := by
  unfold buildInfo at h
  simp only [] at h
  split at h
  · exact absurd h (by simp)
  · split at h
    · exact absurd h (by simp)
    · split at h
      · exact absurd h (by simp)
      · injection h with h
        subst h
        refine ⟨rfl, rfl, rfl, ?_, rfl⟩
        exact mrange_select year

theorem fixdayLoop_ok :
    ∀ (f : Nat) (y m d y' m' d' : Int), 1 ≤ m → m ≤ 12 → 1 ≤ d →
      fixdayLoop f y m d = some (.ok y' m' d') →
      absDayOf y' m' d' = absDayOf y m d ∧ 1 ≤ m' ∧ m' ≤ 12 ∧ 1 ≤ d' ∧
        d' ≤ daysIn m' y' := by
  intro f
  induction f with
  | zero =>
    intro y m d y' m' d' _ _ _ h
    exact absurd h (by simp [fixdayLoop])
  | succ g ih =>
    intro y m d y' m' d' hm1 hm2 hd h
    rw [fixdayLoop] at h
    simp only [] at h
    split at h
    · next hle =>
      injection h with h
      injection h with e1 e2 e3
      subst e1; subst e2; subst e3
      exact ⟨rfl, hm1, hm2, hd, hle⟩
    · next hgt =>
      have hdim := daysIn_bounds y hm1 hm2
      split at h
      · next h13 =>
        split at h
        · exact absurd h (by simp)
        · have hm12 : m = 12 := by
            simp only [beq_iff_eq] at h13
            omega
          have hrec := ih (y + 1) 1 (d - daysIn m y) y' m' d'
            (by omega) (by omega) (by omega) h
          rcases hrec with ⟨habs, rest⟩
          subst hm12
          rw [absDayOf_next_year] at habs
          exact ⟨habs, rest⟩
      · next h13 =>
        have hm11 : m ≤ 11 := by
          simp only [beq_iff_eq] at h13
          omega
        have hrec := ih y (m + 1) (d - daysIn m y) y' m' d'
          (by omega) (by omega) (by omega) h
        rcases hrec with ⟨habs, rest⟩
        rw [absDayOf_next_month hm1 hm11] at habs
        exact ⟨habs, rest⟩

theorem applyFixday_ok {c : Cursor} {fl : Bool} {c' : Cursor}
    (hm1 : 1 ≤ c.month) (hm2 : c.month ≤ 12) (hd : 1 ≤ c.day)
    (hv : fl = false → c.day ≤ daysIn c.month c.year)
    (h : applyFixday c fl = some (.next c')) :
    absDayOf c'.year c'.month c'.day = absDayOf c.year c.month c.day ∧
    1 ≤ c'.month ∧ c'.month ≤ 12 ∧ 1 ≤ c'.day ∧
      c'.day ≤ daysIn c'.month c'.year ∧
    c'.hour = c.hour ∧ c'.minute = c.minute ∧ c'.second = c.second ∧
    c'.weekday = c.weekday ∧ c'.timeset = c.timeset := by
  unfold applyFixday at h
  split at h
  · next hcond =>
    split at h
    · exact absurd h (by simp)
    · next heq =>
      injection h with h
      exact absurd h (by simp)
    · next yy mm dd heq =>
      injection h with h
      injection h with h
      subst h
      have := fixdayLoop_ok (c.day.toNat + 1) c.year c.month c.day yy mm dd
        hm1 hm2 hd heq
      exact ⟨this.1, this.2.1, this.2.2.1, this.2.2.2.1, this.2.2.2.2,
        rfl, rfl, rfl, rfl, rfl⟩
  · next hcond =>
    injection h with h
    injection h with h
    subst h
    have hdv : c.day ≤ daysIn c.month c.year := by
      rcases Bool.eq_false_or_eq_true fl with hf | hf
      · have h28 : ¬ c.day > 28 := fun hgt => hcond ⟨by simp [hf], hgt⟩
        have := daysIn_bounds c.year hm1 hm2
        omega
      · exact hv hf
    exact ⟨rfl, hm1, hm2, hd, hdv, rfl, rfl, rfl, rfl, rfl⟩

theorem monthStart_mono (y1 m1 y2 m2 : Int) (h1 : 0 ≤ m1) (h2 : m1 ≤ 12)
    (h3 : 0 ≤ m2) (h4 : m2 ≤ 12) (hle : 12 * y1 + m1 ≤ 12 * y2 + m2) :
    daysToYear y1 + idx (mrangeOf y1) m1 ≤
      daysToYear y2 + idx (mrangeOf y2) m2 := by
  rcases lt_trichotomy y1 y2 with hy | rfl | hy
  · have a1 := mrangeOf_mono y1 (j := m1) (k := 12) h1 h2 (by omega)
    have a2 := mrangeOf_last y1
    have a3 := daysToYear_succ y1
    have a4 := daysToYear_mono (show y1 + 1 ≤ y2 by omega)
    have a5 := mrangeOf_zero y2
    have a6 := mrangeOf_mono y2 (j := 0) (k := m2) (by omega) h3 h4
    omega
  · have := mrangeOf_mono y1 (j := m1) (k := m2) h1 (by omega) h4
    omega
  · have hm1' : m1 = 0 := by omega
    have hm2' : m2 = 12 := by omega
    have hyy : y1 = y2 + 1 := by omega
    subst hm1'; subst hm2'; subst hyy
    have a1 := mrangeOf_zero (y2 + 1)
    have a2 := mrangeOf_last y2
    have a3 := daysToYear_succ y2
    omega

theorem sortInts_sorted_mem (l : List Int) {t : Int} (h : t ∈ sortInts l) :
    t ∈ l := (sortInts_mem l t).mp h

theorem gettimeset_sorted (r : RRule) (freq hour minute second : Int) :
    (gettimeset r freq hour minute second).Sorted (· ≤ ·) := by
  unfold gettimeset
  split
  · exact sortInts_sorted _
  · split
    · exact sortInts_sorted _
    · split
      · simp
      · simp

theorem gettimeset_hourly_mem {r : RRule} {hour minute second t : Int}
    (hf : r.freq = HOURLY)
    (hmi : ∀ v ∈ r.byminute, 0 ≤ v ∧ v < 60)
    (hs : ∀ v ∈ r.bysecond, 0 ≤ v ∧ v < 60)
    (h : t ∈ gettimeset r r.freq hour minute second) :
    hour * 3600 ≤ t ∧ t < hour * 3600 + 3600 := by
  rw [hf] at h
  unfold gettimeset at h
  rw [if_pos (by decide)] at h
  rw [sortInts_mem] at h
  simp only [List.mem_flatten, List.mem_map] at h
  obtain ⟨blk, ⟨mi, hmi', rfl⟩, hb⟩ := h
  simp only [List.mem_map] at hb
  obtain ⟨s, hs', rfl⟩ := hb
  have b1 := hmi mi hmi'
  have b2 := hs s hs'
  omega

theorem gettimeset_minutely_mem {r : RRule} {hour minute second t : Int}
    (hf : r.freq = MINUTELY)
    (hs : ∀ v ∈ r.bysecond, 0 ≤ v ∧ v < 60)
    (h : t ∈ gettimeset r r.freq hour minute second) :
    hour * 3600 + minute * 60 ≤ t ∧ t < hour * 3600 + minute * 60 + 60 := by
  rw [hf] at h
  unfold gettimeset at h
  rw [if_neg (by decide), if_pos (by decide)] at h
  rw [sortInts_mem] at h
  simp only [List.mem_map] at h
  obtain ⟨s, hs', rfl⟩ := h
  have b2 := hs s hs'
  omega

theorem gettimeset_secondly_mem {r : RRule} {hour minute second t : Int}
    (hf : r.freq = SECONDLY)
    (h : t ∈ gettimeset r r.freq hour minute second) :
    t = hour * 3600 + minute * 60 + second := by
  rw [hf] at h
  unfold gettimeset at h
  rw [if_neg (by decide), if_neg (by decide), if_pos (by decide)] at h
  simp only [List.mem_singleton] at h
  exact h

theorem calculateTimeset_sorted (freq : Int) (bh bm bs : List Int) :
    (calculateTimeset freq bh bm bs).Sorted (· ≤ ·) := by
  unfold calculateTimeset
  split
  · exact sortInts_sorted _
  · simp

theorem calculateTimeset_bounds {freq : Int} {bh bm bs : List Int}
    (hbh : ∀ v ∈ bh, 0 ≤ v ∧ v < 24)
    (hbm : ∀ v ∈ bm, 0 ≤ v ∧ v < 60)
    (hbs : ∀ v ∈ bs, 0 ≤ v ∧ v < 60) :
    ∀ t ∈ calculateTimeset freq bh bm bs, 0 ≤ t ∧ t < 86400 := by
  intro t ht
  unfold calculateTimeset at ht
  split at ht
  · rw [sortInts_mem] at ht
    simp only [List.mem_flatten, List.mem_map] at ht
    obtain ⟨blk, ⟨h, hh, rfl⟩, hb⟩ := ht
    simp only [List.mem_flatten, List.mem_map] at hb
    obtain ⟨blk2, ⟨mi, hm, rfl⟩, hb2⟩ := hb
    simp only [List.mem_map] at hb2
    obtain ⟨s, hs, rfl⟩ := hb2
    have b1 := hbh h hh
    have b2 := hbm mi hm
    have b3 := hbs s hs
    omega
  · simp at ht

theorem hourLoop_ok {r : RRule} (hint : 1 ≤ r.interval) :
    ∀ (f : Nat) (day hour : Int) (fl : Bool) (s : Int × Int × Bool),
      0 ≤ hour →
      hourLoop r f day hour fl = some s →
      0 ≤ s.2.1 ∧ s.2.1 < 24 ∧
      day * 24 + hour + r.interval ≤ s.1 * 24 + s.2.1 ∧
      day ≤ s.1 ∧
      (s.2.2 = false → s.1 = day ∧ fl = false) := by
  intro f
  induction f with
  | zero =>
    intro day hour fl s _ h
    exact absurd h (by simp [hourLoop])
  | succ g ih =>
    intro day hour fl s hh h
    rw [hourLoop] at h
    simp only [divmod] at h
    split at h
    · next hq =>
      rw [bne_iff_ne] at hq
      have hq0 : 0 < (hour + r.interval) / 24 := by omega
      have hr0 : 0 ≤ (hour + r.interval) % 24 := by omega
      have hr1 : (hour + r.interval) % 24 < 24 := by omega
      split at h
      · injection h with h
        subst h
        dsimp only
        refine ⟨by omega, by omega, by omega, by omega, ?_⟩
        intro hfl
        exact absurd hfl (by simp)
      · have := ih (day + (hour + r.interval) / 24) ((hour + r.interval) % 24)
          true s (by omega) h
        refine ⟨this.1, this.2.1, by omega, by omega, ?_⟩
        intro hfl
        rcases this.2.2.2.2 hfl with ⟨_, hcontra⟩
        exact absurd hcontra (by simp)
    · next hq =>
      rw [bne_iff_ne, Decidable.not_not] at hq
      split at h
      · injection h with h
        subst h
        dsimp only
        refine ⟨by omega, by omega, by omega, by omega, ?_⟩
        intro hfl
        exact ⟨rfl, hfl⟩
      · have := ih day (hour + r.interval) fl s (by omega) h
        refine ⟨this.1, this.2.1, by omega, this.2.2.2.1, ?_⟩
        intro hfl
        exact this.2.2.2.2 hfl

theorem minuteLoop_ok {r : RRule} (hint : 1 ≤ r.interval) :
    ∀ (f : Nat) (day hour minute : Int) (fl : Bool)
      (s : Int × Int × Int × Bool),
      0 ≤ hour → hour < 24 → 0 ≤ minute →
      minuteLoop r f day hour minute fl = some s →
      0 ≤ s.2.1 ∧ s.2.1 < 24 ∧ 0 ≤ s.2.2.1 ∧ s.2.2.1 < 60 ∧
      day * 1440 + hour * 60 + minute + r.interval ≤
        s.1 * 1440 + s.2.1 * 60 + s.2.2.1 ∧
      day ≤ s.1 ∧
      (s.2.2.2 = false → s.1 = day ∧ fl = false) := by
  intro f
  induction f with
  | zero =>
    intro day hour minute fl s _ _ _ h
    exact absurd h (by simp [minuteLoop])
  | succ g ih =>
    intro day hour minute fl s hh1 hh2 hm0 h
    rw [minuteLoop] at h
    simp only [divmod] at h
    have hq0 : 0 ≤ (minute + r.interval) / 60 := by omega
    have hr0 : 0 ≤ (minute + r.interval) % 60 := by omega
    have hr1 : (minute + r.interval) % 60 < 60 := by omega
    split at h
    · next hq =>
      rw [bne_iff_ne] at hq
      have hq1 : 0 < (minute + r.interval) / 60 := by omega
      split at h
      · next hq2 =>
        rw [bne_iff_ne] at hq2
        have hc0 : 0 ≤ (hour + (minute + r.interval) / 60) / 24 := by omega
        have hc1 : 0 ≤ (hour + (minute + r.interval) / 60) % 24 := by omega
        have hc2 : (hour + (minute + r.interval) / 60) % 24 < 24 := by omega
        split at h
        · injection h with h
          subst h
          dsimp only
          refine ⟨by omega, by omega, by omega, by omega, by omega, by omega,
            ?_⟩
          intro hfl
          exact absurd hfl (by simp)
        · have := ih (day + (hour + (minute + r.interval) / 60) / 24)
            ((hour + (minute + r.interval) / 60) % 24)
            ((minute + r.interval) % 60) true s (by omega) (by omega)
            (by omega) h
          refine ⟨this.1, this.2.1, this.2.2.1, this.2.2.2.1, by omega,
            by omega, ?_⟩
          intro hfl
          rcases this.2.2.2.2.2.2 hfl with ⟨_, hcontra⟩
          exact absurd hcontra (by simp)
      · next hq2 =>
        rw [bne_iff_ne, Decidable.not_not] at hq2
        have hc1 : 0 ≤ hour + (minute + r.interval) / 60 := by omega
        have hc2 : hour + (minute + r.interval) / 60 < 24 := by omega
        split at h
        · injection h with h
          subst h
          dsimp only
          refine ⟨by omega, by omega, by omega, by omega, by omega, by omega,
            ?_⟩
          intro hfl
          exact ⟨rfl, hfl⟩
        · have := ih day (hour + (minute + r.interval) / 60)
            ((minute + r.interval) % 60) fl s (by omega) (by omega)
            (by omega) h
          refine ⟨this.1, this.2.1, this.2.2.1, this.2.2.2.1, by omega,
            this.2.2.2.2.2.1, ?_⟩
          intro hfl
          exact this.2.2.2.2.2.2 hfl
    · next hq =>
      rw [bne_iff_ne, Decidable.not_not] at hq
      have hm1 : minute + r.interval < 60 := by omega
      split at h
      · injection h with h
        subst h
        dsimp only
        refine ⟨by omega, by omega, by omega, by omega, by omega, by omega,
          ?_⟩
        intro hfl
        exact ⟨rfl, hfl⟩
      · have := ih day hour (minute + r.interval) fl s hh1 hh2 (by omega) h
        refine ⟨this.1, this.2.1, this.2.2.1, this.2.2.2.1, by omega,
          this.2.2.2.2.2.1, ?_⟩
        intro hfl
        exact this.2.2.2.2.2.2 hfl

theorem secondLoop_ok {r : RRule} (hint : 1 ≤ r.interval) :
    ∀ (f : Nat) (day hour minute second : Int) (fl : Bool)
      (s : Int × Int × Int × Int × Bool),
      0 ≤ hour → hour < 24 → 0 ≤ minute → minute < 60 → 0 ≤ second →
      secondLoop r f day hour minute second fl = some s →
      0 ≤ s.2.1 ∧ s.2.1 < 24 ∧ 0 ≤ s.2.2.1 ∧ s.2.2.1 < 60 ∧
      0 ≤ s.2.2.2.1 ∧ s.2.2.2.1 < 60 ∧
      day * 86400 + hour * 3600 + minute * 60 + second + r.interval ≤
        s.1 * 86400 + s.2.1 * 3600 + s.2.2.1 * 60 + s.2.2.2.1 ∧
      day ≤ s.1 ∧
      (s.2.2.2.2 = false → s.1 = day ∧ fl = false) := by
  intro f
  induction f with
  | zero =>
    intro day hour minute second fl s _ _ _ _ _ h
    exact absurd h (by simp [secondLoop])
  | succ g ih =>
    intro day hour minute second fl s hh1 hh2 hm1 hm2 hs0 h
    rw [secondLoop] at h
    simp only [divmod] at h
    have ha0 : 0 ≤ (second + r.interval) / 60 := by omega
    have ha1 : 0 ≤ (second + r.interval) % 60 := by omega
    have ha2 : (second + r.interval) % 60 < 60 := by omega
    split at h
    · next hq =>
      rw [bne_iff_ne] at hq
      have hq1 : 0 < (second + r.interval) / 60 := by omega
      split at h
      · next hq2 =>
        rw [bne_iff_ne] at hq2
        have hb0 : 0 ≤ (minute + (second + r.interval) / 60) / 60 := by omega
        have hb1 : 0 < (minute + (second + r.interval) / 60) / 60 := by omega
        have hb2 : 0 ≤ (minute + (second + r.interval) / 60) % 60 := by omega
        have hb3 : (minute + (second + r.interval) / 60) % 60 < 60 := by omega
        split at h
        · next hq3 =>
          rw [bne_iff_ne] at hq3
          have hc0 :
              0 ≤ (hour + (minute + (second + r.interval) / 60) / 60) / 24 :=
            by omega
          have hc1 :
              0 ≤ (hour + (minute + (second + r.interval) / 60) / 60) % 24 :=
            by omega
          have hc2 :
              (hour + (minute + (second + r.interval) / 60) / 60) % 24 < 24 :=
            by omega
          split at h
          · injection h with h
            subst h
            dsimp only
            refine ⟨by omega, by omega, by omega, by omega, by omega,
              by omega, by omega, by omega, ?_⟩
            intro hfl
            exact absurd hfl (by simp)
          · have := ih
              (day + (hour + (minute + (second + r.interval) / 60) / 60) / 24)
              ((hour + (minute + (second + r.interval) / 60) / 60) % 24)
              ((minute + (second + r.interval) / 60) % 60)
              ((second + r.interval) % 60) true s (by omega) (by omega)
              (by omega) (by omega) (by omega) h
            refine ⟨this.1, this.2.1, this.2.2.1, this.2.2.2.1,
              this.2.2.2.2.1, this.2.2.2.2.2.1, by omega, by omega, ?_⟩
            intro hfl
            rcases this.2.2.2.2.2.2.2.2 hfl with ⟨_, hcontra⟩
            exact absurd hcontra (by simp)
        · next hq3 =>
          rw [bne_iff_ne, Decidable.not_not] at hq3
          have hc1 : 0 ≤ hour + (minute + (second + r.interval) / 60) / 60 :=
            by omega
          have hc2 : hour + (minute + (second + r.interval) / 60) / 60 < 24 :=
            by omega
          split at h
          · injection h with h
            subst h
            dsimp only
            refine ⟨by omega, by omega, by omega, by omega, by omega,
              by omega, by omega, by omega, ?_⟩
            intro hfl
            exact ⟨rfl, hfl⟩
          · have := ih day (hour + (minute + (second + r.interval) / 60) / 60)
              ((minute + (second + r.interval) / 60) % 60)
              ((second + r.interval) % 60) fl s (by omega) (by omega)
              (by omega) (by omega) (by omega) h
            refine ⟨this.1, this.2.1, this.2.2.1, this.2.2.2.1,
              this.2.2.2.2.1, this.2.2.2.2.2.1, by omega,
              this.2.2.2.2.2.2.2.1, ?_⟩
            intro hfl
            exact this.2.2.2.2.2.2.2.2 hfl
      · next hq2 =>
        rw [bne_iff_ne, Decidable.not_not] at hq2
        have hb1 : 0 ≤ minute + (second + r.interval) / 60 := by omega
        have hb2 : minute + (second + r.interval) / 60 < 60 := by omega
        split at h
        · injection h with h
          subst h
          dsimp only
          refine ⟨by omega, by omega, by omega, by omega, by omega, by omega,
            by omega, by omega, ?_⟩
          intro hfl
          exact ⟨rfl, hfl⟩
        · have := ih day hour (minute + (second + r.interval) / 60)
            ((second + r.interval) % 60) fl s (by omega) (by omega)
            (by omega) (by omega) (by omega) h
          refine ⟨this.1, this.2.1, this.2.2.1, this.2.2.2.1,
            this.2.2.2.2.1, this.2.2.2.2.2.1, by omega,
            this.2.2.2.2.2.2.2.1, ?_⟩
          intro hfl
          exact this.2.2.2.2.2.2.2.2 hfl
    · next hq =>
      rw [bne_iff_ne, Decidable.not_not] at hq
      have hs1 : second + r.interval < 60 := by omega
      split at h
      · injection h with h
        subst h
        dsimp only
        refine ⟨by omega, by omega, by omega, by omega, by omega, by omega,
          by omega, by omega, ?_⟩
        intro hfl
        exact ⟨rfl, hfl⟩
      · have := ih day hour minute (second + r.interval) fl s hh1 hh2 hm1 hm2
          (by omega) h
        refine ⟨this.1, this.2.1, this.2.2.1, this.2.2.2.1,
          this.2.2.2.2.1, this.2.2.2.2.2.1, by omega,
          this.2.2.2.2.2.2.2.1, ?_⟩
        intro hfl
        exact this.2.2.2.2.2.2.2.2 hfl

theorem tod_bounds {r : RRule} {c : Cursor} (hinv : CurInv r c) :
    0 ≤ todLo r c ∧ todHi r c ≤ 86400 ∧ todLo r c ≤ todHi r c := by
  obtain ⟨-, -, -, hh, hm, hs, -, -⟩ := hinv
  by_cases h4 : r.freq = HOURLY
  · have := hh (le_of_eq h4.symm)
    simp only [todLo, todHi, h4, HOURLY, MINUTELY, SECONDLY]
    norm_num
    omega
  · by_cases h5 : r.freq = MINUTELY
    · have a := hh (by rw [h5]; decide)
      have b := hm (le_of_eq h5.symm)
      simp only [todLo, todHi, h5, HOURLY, MINUTELY, SECONDLY]
      norm_num
      omega
    · by_cases h6 : r.freq = SECONDLY
      · have a := hh (by rw [h6]; decide)
        have b := hm (by rw [h6]; decide)
        have d := hs (le_of_eq h6.symm)
        simp only [todLo, todHi, h6, HOURLY, MINUTELY, SECONDLY]
        norm_num
        omega
      · have e4 : (r.freq == HOURLY) = false := by
          simp [h4]
        have e5 : (r.freq == MINUTELY) = false := by
          simp [h5]
        have e6 : (r.freq == SECONDLY) = false := by
          simp [h6]
        simp only [todLo, todHi, e4, e5, e6]
        norm_num

theorem wGap_bounds (wd wkst : Int) : 1 ≤ wGap wd wkst ∧ wGap wd wkst ≤ 7 := by
  unfold wGap pymod
  split
  · omega
  · next hne =>
    simp only [beq_iff_eq] at hne
    omega

theorem wGap_mod (wd wkst : Int) :
    (wd + wGap wd wkst) % 7 = wkst % 7 := by
  unfold wGap pymod
  split
  · next he =>
    simp only [beq_iff_eq] at he
    omega
  · next he =>
    simp only [beq_iff_eq] at he
    omega

theorem cand_bounds {r : RRule} {c : Cursor} {info : Info} {i tod : Int}
    (hval : ValidRule r) (hinv : CurInv r c)
    (hyl : info.yearlen = 365 + isLeap c.year)
    (hfd : info.fday = daysToYear c.year)
    (hmr : info.mrange = mrangeOf c.year)
    (hwd : info.wdaymask = WDAYMASK.drop (pyDow (daysToYear c.year)).toNat)
    (hi1 : (getdayset r info c.month c.day).1 ≤ i)
    (hi2 : i < (getdayset r info c.month c.day).2)
    (ht1 : todLo r c ≤ tod) (ht2 : tod < todHi r c) :
    periodLo r c ≤ (info.fday + i) * 86400 + tod ∧
      (info.fday + i) * 86400 + tod < periodHi r c := by
  obtain ⟨hint, hf0, hf6, hw0, hw7, hbh, hbm, hbs⟩ := hval
  obtain ⟨invM, invD, invW, invH, invMi, invS, hts, htb⟩ := hinv
  rw [show SECONDLY = 6 from rfl] at hf6
  have hcur : curAbs c =
      daysToYear c.year + (idx (mrangeOf c.year) (c.month - 1) +
        (c.day - 1)) := rfl
  have hcases : r.freq = 0 ∨ r.freq = 1 ∨ r.freq = 2 ∨ r.freq = 3 ∨
      r.freq = 4 ∨ r.freq = 5 ∨ r.freq = 6 := by omega
  rcases hcases with hf | hf | hf | hf | hf | hf | hf
  · -- YEARLY
    simp only [getdayset, hf, YEARLY] at hi1 hi2
    norm_num at hi1 hi2
    rw [hyl] at hi2
    simp only [periodLo, periodHi, todLo, todHi, hf, YEARLY, MONTHLY,
      WEEKLY, DAILY, HOURLY, MINUTELY, SECONDLY] at ht1 ht2 ⊢
    norm_num at ht1 ht2 ⊢
    have hsucc := daysToYear_succ c.year
    rw [hfd]
    omega
  · -- MONTHLY
    simp only [getdayset, hf, YEARLY, MONTHLY] at hi1 hi2
    norm_num at hi1 hi2
    rw [hmr] at hi1 hi2
    simp only [periodLo, periodHi, todLo, todHi, hf, YEARLY, MONTHLY,
      WEEKLY, DAILY, HOURLY, MINUTELY, SECONDLY] at ht1 ht2 ⊢
    norm_num at ht1 ht2 ⊢
    rw [hfd]
    omega
  · -- WEEKLY
    have hdate := invD (by rw [hf]; decide)
    simp only [getdayset, hf, YEARLY, MONTHLY, WEEKLY] at hi1 hi2
    norm_num at hi1 hi2
    rw [hmr] at hi1 hi2
    rw [hwd] at hi2
    have hyb := ydayOf_bounds hdate.1 hdate.2.1 hdate.2.2.1 hdate.2.2.2
    unfold ydayOf at hyb
    have hkb := wGap_bounds (pyDow (curAbs c)) r.wkst
    have hmod := wGap_mod (pyDow (curAbs c)) r.wkst
    have hleap := isLeap_cases c.year
    have hidx : idx (WDAYMASK.drop (pyDow (daysToYear c.year)).toNat)
        ((idx (mrangeOf c.year) (c.month - 1) + (c.day - 1)) +
          wGap (pyDow (curAbs c)) r.wkst) = r.wkst := by
      rw [idx_wdaymask (by unfold pyDow; omega) (by unfold pyDow; omega)
        (by omega) (by omega)]
      unfold pymod pyDow at hmod hkb ⊢
      rw [hcur] at hmod hkb ⊢
      omega
    have hend := weeklyEnd_le_match
      (WDAYMASK.drop (pyDow (daysToYear c.year)).toNat) r.wkst 7
      (idx (mrangeOf c.year) (c.month - 1) + (c.day - 1))
      (wGap (pyDow (curAbs c)) r.wkst) (by omega) (by norm_num; omega) hidx
    simp only [periodLo, periodHi, todLo, todHi, hf, YEARLY, MONTHLY,
      WEEKLY, DAILY, HOURLY, MINUTELY, SECONDLY] at ht1 ht2 ⊢
    norm_num at ht1 ht2 ⊢
    rw [hfd]
    omega
  · -- DAILY
    simp only [getdayset, hf, YEARLY, MONTHLY, WEEKLY] at hi1 hi2
    norm_num at hi1 hi2
    rw [hmr] at hi1 hi2
    simp only [periodLo, periodHi, todLo, todHi, hf, YEARLY, MONTHLY,
      WEEKLY, DAILY, HOURLY, MINUTELY, SECONDLY] at ht1 ht2 ⊢
    norm_num at ht1 ht2 ⊢
    rw [hfd]
    omega
  · -- HOURLY
    simp only [getdayset, hf, YEARLY, MONTHLY, WEEKLY] at hi1 hi2
    norm_num at hi1 hi2
    rw [hmr] at hi1 hi2
    simp only [periodLo, periodHi, todLo, todHi, hf, YEARLY, MONTHLY,
      WEEKLY, DAILY, HOURLY, MINUTELY, SECONDLY] at ht1 ht2 ⊢
    norm_num at ht1 ht2 ⊢
    rw [hfd]
    omega
  · -- MINUTELY
    simp only [getdayset, hf, YEARLY, MONTHLY, WEEKLY] at hi1 hi2
    norm_num at hi1 hi2
    rw [hmr] at hi1 hi2
    simp only [periodLo, periodHi, todLo, todHi, hf, YEARLY, MONTHLY,
      WEEKLY, DAILY, HOURLY, MINUTELY, SECONDLY] at ht1 ht2 ⊢
    norm_num at ht1 ht2 ⊢
    rw [hfd]
    omega
  · -- SECONDLY
    simp only [getdayset, hf, YEARLY, MONTHLY, WEEKLY] at hi1 hi2
    norm_num at hi1 hi2
    rw [hmr] at hi1 hi2
    simp only [periodLo, periodHi, todLo, todHi, hf, YEARLY, MONTHLY,
      WEEKLY, DAILY, HOURLY, MINUTELY, SECONDLY] at ht1 ht2 ⊢
    norm_num at ht1 ht2 ⊢
    rw [hfd]
    omega

theorem idx_emod_mem {l : List Int} (hne : l ≠ []) (x : Int) :
    idx l (x % (l.length : Int)) ∈ l := by
  have hlen : 0 < l.length := List.length_pos.mpr hne
  have hlz : (l.length : Int) ≠ 0 := by
    simp only [ne_eq, Nat.cast_eq_zero]
    omega
  have h0 : 0 ≤ x % (l.length : Int) := Int.emod_nonneg x hlz
  have h1 : x % (l.length : Int) < (l.length : Int) :=
    Int.emod_lt_of_pos x (by exact_mod_cast hlen)
  exact idx_mem l _ h0 (by omega)

theorem periodBatch_ok {r : RRule} {c : Cursor} {batch : List Int}
    {flt : Bool} (hval : ValidRule r) (hinv : CurInv r c)
    (h : periodBatch r c = some (batch, flt)) :
    batch.Sorted (· ≤ ·) ∧
    ∀ t ∈ batch, periodLo r c ≤ t ∧ t < periodHi r c := by
  have htod := tod_bounds hinv
  have hts := hinv.2.2.2.2.2.2.1
  have htb := hinv.2.2.2.2.2.2.2
  unfold periodBatch at h
  split at h
  · exact absurd h (by simp)
  · next info hinfo =>
    obtain ⟨hyl, hnyl, hfd, hmr, hwd⟩ := buildInfo_fields hinfo
    simp only [] at h
    injection h with h
    rw [Prod.mk.injEq] at h
    obtain ⟨hb, -⟩ := h
    subst hb
    split
    · next hsp =>
      refine ⟨sortInts_sorted _, ?_⟩
      intro t ht
      rw [setposList, sortInts_mem, setposFold_mem] at ht
      simp only [List.not_mem_nil, false_or] at ht
      obtain ⟨pos, hpos, hcand⟩ := ht
      simp only [setposCandidate] at hcand
      rw [Option.map_eq_some'] at hcand
      obtain ⟨i, hps, hti⟩ := hcand
      have hsurv := pySubscript_mem hps
      have hiw := (List.mem_filter.mp hsurv).1
      rw [intRange_mem] at hiw
      have hne : c.timeset ≠ [] := by
        intro he
        exact hsp.2 (by simp [he])
      have htmem : idx c.timeset
          ((if pos < 0 then divmod pos c.timeset.length
            else divmod (pos - 1) c.timeset.length).2) ∈ c.timeset := by
        by_cases hneg : pos < 0
        · rw [if_pos hneg]
          simp only [divmod]
          exact idx_emod_mem hne pos
        · rw [if_neg hneg]
          simp only [divmod]
          exact idx_emod_mem hne (pos - 1)
      have hbd := htb _ htmem
      have := cand_bounds hval hinv hyl hfd hmr hwd hiw.1 hiw.2 hbd.1 hbd.2
      rw [hti] at this
      exact this
    · next hsp =>
      constructor
      · apply plain_batch_sorted
        · exact List.Pairwise.filter _ (intRange_pairwise _ _)
        · exact hts
        · intro t ht'
          have := htb t ht'
          omega
      · intro t ht
        obtain ⟨i, hi, tod, htod', rfl⟩ :=
          plain_batch_mem info.fday _ c.timeset t ht
        have hiw := (List.mem_filter.mp hi).1
        rw [intRange_mem] at hiw
        have hbd := htb tod htod'
        exact cand_bounds hval hinv hyl hfd hmr hwd hiw.1 hiw.2 hbd.1 hbd.2

theorem absDayOf_linear (y m d : Int) :
    absDayOf y m d = daysToYear y + idx (mrangeOf y) (m - 1) + d - 1 := by
  unfold absDayOf ydayOf
  ring

theorem stepCursor_ok_yearly {r : RRule} {c : Cursor} {flt : Bool}
    {c' : Cursor} (hval : ValidRule r) (hinv : CurInv r c)
    (hf : r.freq = YEARLY) (h : stepCursor r c flt = some (.next c')) :
    CurInv r c' ∧ periodHi r c ≤ periodLo r c' := by
  obtain ⟨hint, hf0, hf6, hw0, hw7, hbh, hbm, hbs⟩ := hval
  obtain ⟨invM, invD, invW, invH, invMi, invS, hts, htb⟩ := hinv
  unfold stepCursor at h
  rw [hf] at h
  rw [if_pos (by decide)] at h
  simp only [] at h
  split at h
  · exact absurd h (by simp)
  · injection h with h
    injection h with h
    subst h
    refine ⟨⟨?_, ?_, ?_, ?_, ?_, ?_, hts, ?_⟩, ?_⟩
    · intro h1
      rw [hf] at h1
      exact absurd h1 (by decide)
    · intro h1
      rw [hf] at h1
      exact absurd h1 (by decide)
    · intro h1
      rw [hf] at h1
      exact absurd h1 (by decide)
    · intro h1
      rw [hf] at h1
      exact absurd h1 (by decide)
    · intro h1
      rw [hf] at h1
      exact absurd h1 (by decide)
    · intro h1
      rw [hf] at h1
      exact absurd h1 (by decide)
    · exact htb
    · simp only [periodLo, periodHi, hf]
      norm_num
      have := daysToYear_mono (show c.year + 1 ≤ c.year + r.interval by omega)
      omega

theorem stepCursor_ok_monthly {r : RRule} {c : Cursor} {flt : Bool}
    {c' : Cursor} (hval : ValidRule r) (hinv : CurInv r c)
    (hf : r.freq = MONTHLY) (h : stepCursor r c flt = some (.next c')) :
    CurInv r c' ∧ periodHi r c ≤ periodLo r c' := by
  obtain ⟨hint, hf0, hf6, hw0, hw7, hbh, hbm, hbs⟩ := hval
  obtain ⟨invM, invD, invW, invH, invMi, invS, hts, htb⟩ := hinv
  have hM := invM hf
  unfold stepCursor at h
  rw [hf] at h
  rw [if_neg (by decide), if_pos (by decide)] at h
  simp only [divmod] at h
  have hq : c.month + r.interval =
      12 * ((c.month + r.interval) / 12) + (c.month + r.interval) % 12 := by
    omega
  have hr0 : 0 ≤ (c.month + r.interval) % 12 := by omega
  have hr1 : (c.month + r.interval) % 12 < 12 := by omega
  split at h
  · next hgt =>
    split at h
    · next hz =>
      rw [beq_iff_eq] at hz
      split at h
      · exact absurd h (by simp)
      · injection h with h
        injection h with h
        subst h
        refine ⟨⟨?_, ?_, ?_, ?_, ?_, ?_, hts, ?_⟩, ?_⟩
        · intro h1
          dsimp only
          exact ⟨by norm_num, by norm_num⟩
        · intro h1
          rw [hf] at h1
          exact absurd h1 (by decide)
        · intro h1
          rw [hf] at h1
          exact absurd h1 (by decide)
        · intro h1
          rw [hf] at h1
          exact absurd h1 (by decide)
        · intro h1
          rw [hf] at h1
          exact absurd h1 (by decide)
        · intro h1
          rw [hf] at h1
          exact absurd h1 (by decide)
        · exact htb
        · simp only [periodLo, periodHi, hf, YEARLY, MONTHLY, WEEKLY,
            DAILY, HOURLY, MINUTELY, SECONDLY]
          norm_num
          have := monthStart_mono c.year c.month
            (c.year + (c.month + r.interval) / 12 - 1) 11
            (by omega) (by omega) (by omega) (by omega) (by omega)
          omega
    · next hz =>
      rw [beq_iff_eq] at hz
      split at h
      · exact absurd h (by simp)
      · injection h with h
        injection h with h
        subst h
        refine ⟨⟨?_, ?_, ?_, ?_, ?_, ?_, hts, ?_⟩, ?_⟩
        · intro h1
          dsimp only
          exact ⟨by omega, by omega⟩
        · intro h1
          rw [hf] at h1
          exact absurd h1 (by decide)
        · intro h1
          rw [hf] at h1
          exact absurd h1 (by decide)
        · intro h1
          rw [hf] at h1
          exact absurd h1 (by decide)
        · intro h1
          rw [hf] at h1
          exact absurd h1 (by decide)
        · intro h1
          rw [hf] at h1
          exact absurd h1 (by decide)
        · exact htb
        · simp only [periodLo, periodHi, hf, YEARLY, MONTHLY, WEEKLY,
            DAILY, HOURLY, MINUTELY, SECONDLY]
          norm_num
          have := monthStart_mono c.year c.month
            (c.year + (c.month + r.interval) / 12)
            ((c.month + r.interval) % 12 - 1)
            (by omega) (by omega) (by omega) (by omega) (by omega)
          omega
  · next hle =>
    injection h with h
    injection h with h
    subst h
    refine ⟨⟨?_, ?_, ?_, ?_, ?_, ?_, hts, ?_⟩, ?_⟩
    · intro h1
      dsimp only
      exact ⟨by omega, by omega⟩
    · intro h1
      rw [hf] at h1
      exact absurd h1 (by decide)
    · intro h1
      rw [hf] at h1
      exact absurd h1 (by decide)
    · intro h1
      rw [hf] at h1
      exact absurd h1 (by decide)
    · intro h1
      rw [hf] at h1
      exact absurd h1 (by decide)
    · intro h1
      rw [hf] at h1
      exact absurd h1 (by decide)
    · exact htb
    · simp only [periodLo, periodHi, hf, YEARLY, MONTHLY, WEEKLY,
        DAILY, HOURLY, MINUTELY, SECONDLY]
      norm_num
      have := monthStart_mono c.year c.month
        c.year (c.month + r.interval - 1)
        (by omega) (by omega) (by omega) (by omega) (by omega)
      omega

theorem stepCursor_ok_weekly {r : RRule} {c : Cursor} {flt : Bool}
    {c' : Cursor} (hval : ValidRule r) (hinv : CurInv r c)
    (hf : r.freq = WEEKLY) (h : stepCursor r c flt = some (.next c')) :
    CurInv r c' ∧ periodHi r c ≤ periodLo r c' := by
  obtain ⟨hint, hf0, hf6, hw0, hw7, hbh, hbm, hbs⟩ := hval
  obtain ⟨invM, invD, invW, invH, invMi, invS, hts, htb⟩ := hinv
  have hD := invD (by rw [hf])
  have hwd := invW hf
  unfold pyDow at hwd
  unfold stepCursor at h
  rw [hf] at h
  rw [if_neg (by decide), if_neg (by decide), if_pos (by decide)] at h
  simp only [] at h
  have hwb : 0 ≤ c.weekday ∧ c.weekday < 7 := by
    rw [hwd]
    omega
  have hKb := wGap_bounds (pyDow (curAbs c)) r.wkst
  have hKm := wGap_mod (pyDow (curAbs c)) r.wkst
  unfold pyDow at hKb hKm
  split at h
  · next hgt =>
    have hfix := applyFixday_ok
      (by dsimp only; omega) (by dsimp only; omega) (by dsimp only; omega)
      (by intro hfl; exact absurd hfl (by simp)) h
    obtain ⟨habs, hfm1, hfm2, hfd1, hfd2, hfh, hfmi, hfs, hfw, hft⟩ := hfix
    dsimp only at habs hfw hft
    have hlin1 := absDayOf_linear c.year c.month
      (c.day + (-(c.weekday + 1 + (6 - r.wkst)) + r.interval * 7))
    have hlin2 := absDayOf_linear c.year c.month c.day
    have hcur' : curAbs c' = curAbs c +
        (-(c.weekday + 1 + (6 - r.wkst)) + r.interval * 7) := by
      unfold curAbs
      rw [habs, hlin1, hlin2]
      ring
    refine ⟨⟨?_, ?_, ?_, ?_, ?_, ?_, ?_, ?_⟩, ?_⟩
    · intro h1
      rw [hf] at h1
      exact absurd h1 (by decide)
    · intro h1
      exact ⟨hfm1, hfm2, hfd1, hfd2⟩
    · intro h1
      rw [hfw]
      unfold pyDow
      rw [hcur']
      omega
    · intro h1
      rw [hf] at h1
      exact absurd h1 (by decide)
    · intro h1
      rw [hf] at h1
      exact absurd h1 (by decide)
    · intro h1
      rw [hf] at h1
      exact absurd h1 (by decide)
    · rw [hft]
      exact hts
    · intro t ht
      rw [hft] at ht
      have hb := htb t ht
      have e1 : todLo r c' = 0 := by
        simp [todLo, hf, HOURLY, MINUTELY, SECONDLY, WEEKLY]
      have e2 : todHi r c' = 86400 := by
        simp [todHi, hf, HOURLY, MINUTELY, SECONDLY, WEEKLY]
      have e3 : todLo r c = 0 := by
        simp [todLo, hf, HOURLY, MINUTELY, SECONDLY, WEEKLY]
      have e4 : todHi r c = 86400 := by
        simp [todHi, hf, HOURLY, MINUTELY, SECONDLY, WEEKLY]
      omega
    · simp only [periodLo, periodHi, todLo, todHi, hf, YEARLY, MONTHLY,
        WEEKLY, DAILY, HOURLY, MINUTELY, SECONDLY]
      norm_num
      unfold pyDow
      rw [hcur']
      omega
  · next hgt =>
    have hfix := applyFixday_ok
      (by dsimp only; omega) (by dsimp only; omega) (by dsimp only; omega)
      (by intro hfl; exact absurd hfl (by simp)) h
    obtain ⟨habs, hfm1, hfm2, hfd1, hfd2, hfh, hfmi, hfs, hfw, hft⟩ := hfix
    dsimp only at habs hfw hft
    have hlin1 := absDayOf_linear c.year c.month
      (c.day + (-(c.weekday - r.wkst) + r.interval * 7))
    have hlin2 := absDayOf_linear c.year c.month c.day
    have hcur' : curAbs c' = curAbs c +
        (-(c.weekday - r.wkst) + r.interval * 7) := by
      unfold curAbs
      rw [habs, hlin1, hlin2]
      ring
    refine ⟨⟨?_, ?_, ?_, ?_, ?_, ?_, ?_, ?_⟩, ?_⟩
    · intro h1
      rw [hf] at h1
      exact absurd h1 (by decide)
    · intro h1
      exact ⟨hfm1, hfm2, hfd1, hfd2⟩
    · intro h1
      rw [hfw]
      unfold pyDow
      rw [hcur']
      omega
    · intro h1
      rw [hf] at h1
      exact absurd h1 (by decide)
    · intro h1
      rw [hf] at h1
      exact absurd h1 (by decide)
    · intro h1
      rw [hf] at h1
      exact absurd h1 (by decide)
    · rw [hft]
      exact hts
    · intro t ht
      rw [hft] at ht
      have hb := htb t ht
      have e1 : todLo r c' = 0 := by
        simp [todLo, hf, HOURLY, MINUTELY, SECONDLY, WEEKLY]
      have e2 : todHi r c' = 86400 := by
        simp [todHi, hf, HOURLY, MINUTELY, SECONDLY, WEEKLY]
      have e3 : todLo r c = 0 := by
        simp [todLo, hf, HOURLY, MINUTELY, SECONDLY, WEEKLY]
      have e4 : todHi r c = 86400 := by
        simp [todHi, hf, HOURLY, MINUTELY, SECONDLY, WEEKLY]
      omega
    · simp only [periodLo, periodHi, todLo, todHi, hf, YEARLY, MONTHLY,
        WEEKLY, DAILY, HOURLY, MINUTELY, SECONDLY]
      norm_num
      unfold pyDow
      rw [hcur']
      omega

theorem stepCursor_ok_daily {r : RRule} {c : Cursor} {flt : Bool}
    {c' : Cursor} (hval : ValidRule r) (hinv : CurInv r c)
    (hf : r.freq = DAILY) (h : stepCursor r c flt = some (.next c')) :
    CurInv r c' ∧ periodHi r c ≤ periodLo r c' := by
  obtain ⟨hint, hf0, hf6, hw0, hw7, hbh, hbm, hbs⟩ := hval
  obtain ⟨invM, invD, invW, invH, invMi, invS, hts, htb⟩ := hinv
  have hD := invD (by rw [hf]; decide)
  unfold stepCursor at h
  rw [hf] at h
  rw [if_neg (by decide), if_neg (by decide), if_neg (by decide),
    if_pos (by decide)] at h
  have hfix := applyFixday_ok
    (by dsimp only; omega) (by dsimp only; omega) (by dsimp only; omega)
    (by intro hfl; exact absurd hfl (by simp)) h
  obtain ⟨habs, hfm1, hfm2, hfd1, hfd2, hfh, hfmi, hfs, hfw, hft⟩ := hfix
  dsimp only at habs hfw hft
  have hlin1 := absDayOf_linear c.year c.month (c.day + r.interval)
  have hlin2 := absDayOf_linear c.year c.month c.day
  have hcur' : curAbs c' = curAbs c + r.interval := by
    unfold curAbs
    rw [habs, hlin1, hlin2]
    ring
  refine ⟨⟨?_, ?_, ?_, ?_, ?_, ?_, ?_, ?_⟩, ?_⟩
  · intro h1
    rw [hf] at h1
    exact absurd h1 (by decide)
  · intro h1
    exact ⟨hfm1, hfm2, hfd1, hfd2⟩
  · intro h1
    rw [hf] at h1
    exact absurd h1 (by decide)
  · intro h1
    rw [hf] at h1
    exact absurd h1 (by decide)
  · intro h1
    rw [hf] at h1
    exact absurd h1 (by decide)
  · intro h1
    rw [hf] at h1
    exact absurd h1 (by decide)
  · rw [hft]
    exact hts
  · intro t ht
    rw [hft] at ht
    have hb := htb t ht
    have e1 : todLo r c' = 0 := by
      simp [todLo, hf, HOURLY, MINUTELY, SECONDLY, DAILY]
    have e2 : todHi r c' = 86400 := by
      simp [todHi, hf, HOURLY, MINUTELY, SECONDLY, DAILY]
    have e3 : todLo r c = 0 := by
      simp [todLo, hf, HOURLY, MINUTELY, SECONDLY, DAILY]
    have e4 : todHi r c = 86400 := by
      simp [todHi, hf, HOURLY, MINUTELY, SECONDLY, DAILY]
    omega
  · simp only [periodLo, periodHi, todLo, todHi, hf, YEARLY, MONTHLY,
      WEEKLY, DAILY, HOURLY, MINUTELY, SECONDLY]
    norm_num
    rw [hcur']
    omega

theorem stepCursor_hourly_aux {r : RRule} {c : Cursor} {c' : Cursor}
    {hour0 : Int} {s : Int × Int × Bool}
    (hval : ValidRule r) (hinv : CurInv r c) (hf : r.freq = HOURLY)
    (hh0 : c.hour ≤ hour0)
    (hloopEq : hourLoop r 24 c.day hour0 false = some s)
    (h : applyFixday { c with
        day := s.1
        hour := s.2.1
        timeset := gettimeset r r.freq s.2.1 c.minute c.second } s.2.2 =
      some (.next c')) :
    CurInv r c' ∧ periodHi r c ≤ periodLo r c' := by
  obtain ⟨hint, hf0, hf6, hw0, hw7, hbh, hbm, hbs⟩ := hval
  obtain ⟨invM, invD, invW, invH, invMi, invS, hts, htb⟩ := hinv
  have hD := invD (by rw [hf]; decide)
  have hH := invH (by rw [hf])
  have hloop := hourLoop_ok hint 24 c.day hour0 false s (by omega) hloopEq
  obtain ⟨hl1, hl2, hl3, hl4, hl5⟩ := hloop
  have hfix := applyFixday_ok
    (by dsimp only; omega) (by dsimp only; omega) (by dsimp only; omega)
    (by intro hfl; dsimp only; have := hl5 hfl; omega) h
  obtain ⟨habs, hfm1, hfm2, hfd1, hfd2, hfh, hfmi, hfs, hfw, hft⟩ := hfix
  dsimp only at habs hfh hfmi hfs hfw hft
  have hlin1 := absDayOf_linear c.year c.month s.1
  have hlin2 := absDayOf_linear c.year c.month c.day
  have hcur' : curAbs c' = curAbs c + (s.1 - c.day) := by
    unfold curAbs
    rw [habs, hlin1, hlin2]
    ring
  refine ⟨⟨?_, ?_, ?_, ?_, ?_, ?_, ?_, ?_⟩, ?_⟩
  · intro h1
    rw [hf] at h1
    exact absurd h1 (by decide)
  · intro h1
    exact ⟨hfm1, hfm2, hfd1, hfd2⟩
  · intro h1
    rw [hf] at h1
    exact absurd h1 (by decide)
  · intro h1
    rw [hfh]
    omega
  · intro h1
    rw [hf] at h1
    exact absurd h1 (by decide)
  · intro h1
    rw [hf] at h1
    exact absurd h1 (by decide)
  · rw [hft]
    exact gettimeset_sorted r r.freq s.2.1 c.minute c.second
  · intro t ht
    rw [hft] at ht
    have hgb := gettimeset_hourly_mem hf hbm hbs ht
    have eL : todLo r c' = c'.hour * 3600 := by
      simp [todLo, hf]
    have eH : todHi r c' = c'.hour * 3600 + 3600 := by
      simp [todHi, hf]
    rw [eL, eH, hfh]
    omega
  · simp only [periodLo, periodHi, todLo, todHi, hf, YEARLY, MONTHLY,
      WEEKLY, DAILY, HOURLY, MINUTELY, SECONDLY]
    norm_num
    rw [hcur', hfh]
    omega

theorem stepCursor_ok_hourly {r : RRule} {c : Cursor} {flt : Bool}
    {c' : Cursor} (hval : ValidRule r) (hinv : CurInv r c)
    (hf : r.freq = HOURLY) (h : stepCursor r c flt = some (.next c')) :
    CurInv r c' ∧ periodHi r c ≤ periodLo r c' := by
  have hH := hinv.2.2.2.1 (by rw [hf])
  have hint := hval.1
  unfold stepCursor at h
  rw [if_neg (by rw [hf]; decide), if_neg (by rw [hf]; decide),
    if_neg (by rw [hf]; decide), if_neg (by rw [hf]; decide),
    if_pos (by rw [hf]; decide)] at h
  simp only [] at h
  split at h
  · exact absurd h (by simp)
  · next s heq =>
    split at heq
    · have hdivq : 0 ≤ (23 - c.hour) / r.interval :=
        Int.ediv_nonneg (by omega) (by omega)
      have hmul : 0 ≤ (23 - c.hour) / r.interval * r.interval :=
        mul_nonneg hdivq (by omega)
      exact stepCursor_hourly_aux hval hinv hf (by omega) heq h
    · exact stepCursor_hourly_aux hval hinv hf (le_refl c.hour) heq h

theorem stepCursor_minutely_aux {r : RRule} {c : Cursor} {c' : Cursor}
    {minute0 : Int} {s : Int × Int × Int × Bool}
    (hval : ValidRule r) (hinv : CurInv r c) (hf : r.freq = MINUTELY)
    (hm0 : c.minute ≤ minute0)
    (hloopEq : minuteLoop r 1440 c.day c.hour minute0 false = some s)
    (h : applyFixday { c with
        day := s.1
        hour := s.2.1
        minute := s.2.2.1
        timeset := gettimeset r r.freq s.2.1 s.2.2.1 c.second } s.2.2.2 =
      some (.next c')) :
    CurInv r c' ∧ periodHi r c ≤ periodLo r c' := by
  obtain ⟨hint, hf0, hf6, hw0, hw7, hbh, hbm, hbs⟩ := hval
  obtain ⟨invM, invD, invW, invH, invMi, invS, hts, htb⟩ := hinv
  have hD := invD (by rw [hf]; decide)
  have hH := invH (by rw [hf]; decide)
  have hMi := invMi (by rw [hf])
  have hloop := minuteLoop_ok hint 1440 c.day c.hour minute0 false s
    hH.1 hH.2 (by omega) hloopEq
  obtain ⟨hl1, hl2, hl3, hl4, hl5, hl6, hl7⟩ := hloop
  have hfix := applyFixday_ok
    (by dsimp only; omega) (by dsimp only; omega) (by dsimp only; omega)
    (by intro hfl; dsimp only; have := hl7 hfl; omega) h
  obtain ⟨habs, hfm1, hfm2, hfd1, hfd2, hfh, hfmi, hfs, hfw, hft⟩ := hfix
  dsimp only at habs hfh hfmi hfs hfw hft
  have hlin1 := absDayOf_linear c.year c.month s.1
  have hlin2 := absDayOf_linear c.year c.month c.day
  have hcur' : curAbs c' = curAbs c + (s.1 - c.day) := by
    unfold curAbs
    rw [habs, hlin1, hlin2]
    ring
  refine ⟨⟨?_, ?_, ?_, ?_, ?_, ?_, ?_, ?_⟩, ?_⟩
  · intro h1
    rw [hf] at h1
    exact absurd h1 (by decide)
  · intro h1
    exact ⟨hfm1, hfm2, hfd1, hfd2⟩
  · intro h1
    rw [hf] at h1
    exact absurd h1 (by decide)
  · intro h1
    rw [hfh]
    omega
  · intro h1
    rw [hfmi]
    omega
  · intro h1
    rw [hf] at h1
    exact absurd h1 (by decide)
  · rw [hft]
    exact gettimeset_sorted r r.freq s.2.1 s.2.2.1 c.second
  · intro t ht
    rw [hft] at ht
    have hgb := gettimeset_minutely_mem hf hbs ht
    have eL : todLo r c' = c'.hour * 3600 + c'.minute * 60 := by
      simp [todLo, hf, HOURLY, MINUTELY]
    have eH : todHi r c' = c'.hour * 3600 + c'.minute * 60 + 60 := by
      simp [todHi, hf, HOURLY, MINUTELY]
    rw [eL, eH, hfh, hfmi]
    omega
  · simp only [periodLo, periodHi, todLo, todHi, hf, YEARLY, MONTHLY,
      WEEKLY, DAILY, HOURLY, MINUTELY, SECONDLY]
    norm_num
    rw [hcur', hfh, hfmi]
    omega

theorem stepCursor_ok_minutely {r : RRule} {c : Cursor} {flt : Bool}
    {c' : Cursor} (hval : ValidRule r) (hinv : CurInv r c)
    (hf : r.freq = MINUTELY) (h : stepCursor r c flt = some (.next c')) :
    CurInv r c' ∧ periodHi r c ≤ periodLo r c' := by
  have hH := hinv.2.2.2.1 (by rw [hf]; decide)
  have hMi := hinv.2.2.2.2.1 (by rw [hf])
  have hint := hval.1
  unfold stepCursor at h
  rw [if_neg (by rw [hf]; decide), if_neg (by rw [hf]; decide),
    if_neg (by rw [hf]; decide), if_neg (by rw [hf]; decide),
    if_neg (by rw [hf]; decide), if_pos (by rw [hf]; decide)] at h
  simp only [] at h
  split at h
  · exact absurd h (by simp)
  · next s heq =>
    split at heq
    · have hdivq : 0 ≤ (1439 - (c.hour * 60 + c.minute)) / r.interval :=
        Int.ediv_nonneg (by omega) (by omega)
      have hmul :
          0 ≤ (1439 - (c.hour * 60 + c.minute)) / r.interval * r.interval :=
        mul_nonneg hdivq (by omega)
      exact stepCursor_minutely_aux hval hinv hf (by omega) heq h
    · exact stepCursor_minutely_aux hval hinv hf (le_refl c.minute) heq h

theorem stepCursor_secondly_aux {r : RRule} {c : Cursor} {c' : Cursor}
    {second0 : Int} {s : Int × Int × Int × Int × Bool}
    (hval : ValidRule r) (hinv : CurInv r c) (hf : r.freq = SECONDLY)
    (hs0 : c.second ≤ second0)
    (hloopEq :
      secondLoop r 86400 c.day c.hour c.minute second0 false = some s)
    (h : applyFixday { c with
        day := s.1
        hour := s.2.1
        minute := s.2.2.1
        second := s.2.2.2.1
        timeset := gettimeset r r.freq s.2.1 s.2.2.1 s.2.2.2.1 } s.2.2.2.2 =
      some (.next c')) :
    CurInv r c' ∧ periodHi r c ≤ periodLo r c' := by
  obtain ⟨hint, hf0, hf6, hw0, hw7, hbh, hbm, hbs⟩ := hval
  obtain ⟨invM, invD, invW, invH, invMi, invS, hts, htb⟩ := hinv
  have hD := invD (by rw [hf]; decide)
  have hH := invH (by rw [hf]; decide)
  have hMi := invMi (by rw [hf]; decide)
  have hS := invS (by rw [hf])
  have hloop := secondLoop_ok hint 86400 c.day c.hour c.minute second0 false s
    hH.1 hH.2 hMi.1 hMi.2 (by omega) hloopEq
  obtain ⟨hl1, hl2, hl3, hl4, hl5, hl6, hl7, hl8, hl9⟩ := hloop
  have hfix := applyFixday_ok
    (by dsimp only; omega) (by dsimp only; omega) (by dsimp only; omega)
    (by intro hfl; dsimp only; have := hl9 hfl; omega) h
  obtain ⟨habs, hfm1, hfm2, hfd1, hfd2, hfh, hfmi, hfs, hfw, hft⟩ := hfix
  dsimp only at habs hfh hfmi hfs hfw hft
  have hlin1 := absDayOf_linear c.year c.month s.1
  have hlin2 := absDayOf_linear c.year c.month c.day
  have hcur' : curAbs c' = curAbs c + (s.1 - c.day) := by
    unfold curAbs
    rw [habs, hlin1, hlin2]
    ring
  refine ⟨⟨?_, ?_, ?_, ?_, ?_, ?_, ?_, ?_⟩, ?_⟩
  · intro h1
    rw [hf] at h1
    exact absurd h1 (by decide)
  · intro h1
    exact ⟨hfm1, hfm2, hfd1, hfd2⟩
  · intro h1
    rw [hf] at h1
    exact absurd h1 (by decide)
  · intro h1
    rw [hfh]
    omega
  · intro h1
    rw [hfmi]
    omega
  · intro h1
    rw [hfs]
    omega
  · rw [hft]
    exact gettimeset_sorted r r.freq s.2.1 s.2.2.1 s.2.2.2.1
  · intro t ht
    rw [hft] at ht
    have hgb := gettimeset_secondly_mem hf ht
    have eL : todLo r c' =
        c'.hour * 3600 + c'.minute * 60 + c'.second := by
      simp [todLo, hf, HOURLY, MINUTELY, SECONDLY]
    have eH : todHi r c' =
        c'.hour * 3600 + c'.minute * 60 + c'.second + 1 := by
      simp [todHi, hf, HOURLY, MINUTELY, SECONDLY]
    rw [eL, eH, hfh, hfmi, hfs]
    omega
  · simp only [periodLo, periodHi, todLo, todHi, hf, YEARLY, MONTHLY,
      WEEKLY, DAILY, HOURLY, MINUTELY, SECONDLY]
    norm_num
    rw [hcur', hfh, hfmi, hfs]
    omega

theorem stepCursor_ok_secondly {r : RRule} {c : Cursor} {flt : Bool}
    {c' : Cursor} (hval : ValidRule r) (hinv : CurInv r c)
    (hf : r.freq = SECONDLY) (h : stepCursor r c flt = some (.next c')) :
    CurInv r c' ∧ periodHi r c ≤ periodLo r c' := by
  have hH := hinv.2.2.2.1 (by rw [hf]; decide)
  have hMi := hinv.2.2.2.2.1 (by rw [hf]; decide)
  have hS := hinv.2.2.2.2.2.1 (by rw [hf])
  have hint := hval.1
  unfold stepCursor at h
  rw [if_neg (by rw [hf]; decide), if_neg (by rw [hf]; decide),
    if_neg (by rw [hf]; decide), if_neg (by rw [hf]; decide),
    if_neg (by rw [hf]; decide), if_neg (by rw [hf]; decide),
    if_pos (by rw [hf]; decide)] at h
  simp only [] at h
  split at h
  · exact absurd h (by simp)
  · next s heq =>
    split at heq
    · have hdivq : 0 ≤
          (86399 - (c.hour * 3600 + c.minute * 60 + c.second)) /
            r.interval :=
        Int.ediv_nonneg (by omega) (by omega)
      have hmul : 0 ≤
          (86399 - (c.hour * 3600 + c.minute * 60 + c.second)) /
            r.interval * r.interval :=
        mul_nonneg hdivq (by omega)
      exact stepCursor_secondly_aux hval hinv hf (by omega) heq h
    · exact stepCursor_secondly_aux hval hinv hf (le_refl c.second) heq h

theorem stepCursor_ok {r : RRule} {c : Cursor} {flt : Bool} {c' : Cursor}
    (hval : ValidRule r) (hinv : CurInv r c)
    (h : stepCursor r c flt = some (.next c')) :
    CurInv r c' ∧ periodHi r c ≤ periodLo r c' := by
  have hf0 := hval.2.1
  have hf6 := hval.2.2.1
  rw [show SECONDLY = 6 from rfl] at hf6
  have hcases : r.freq = 0 ∨ r.freq = 1 ∨ r.freq = 2 ∨ r.freq = 3 ∨
      r.freq = 4 ∨ r.freq = 5 ∨ r.freq = 6 := by omega
  rcases hcases with hf | hf | hf | hf | hf | hf | hf
  · exact stepCursor_ok_yearly hval hinv hf h
  · exact stepCursor_ok_monthly hval hinv hf h
  · exact stepCursor_ok_weekly hval hinv hf h
  · exact stepCursor_ok_daily hval hinv hf h
  · exact stepCursor_ok_hourly hval hinv hf h
  · exact stepCursor_ok_minutely hval hinv hf h
  · exact stepCursor_ok_secondly hval hinv hf h

theorem periodLo_le_hi {r : RRule} {c : Cursor} (hval : ValidRule r)
    (hinv : CurInv r c) : periodLo r c ≤ periodHi r c := by
  have htod := tod_bounds hinv
  have hf0 := hval.2.1
  have hf6 := hval.2.2.1
  have invM := hinv.1
  rw [show SECONDLY = 6 from rfl] at hf6
  have hcases : r.freq = 0 ∨ r.freq = 1 ∨ r.freq = 2 ∨ r.freq = 3 ∨
      r.freq = 4 ∨ r.freq = 5 ∨ r.freq = 6 := by omega
  rcases hcases with hf | hf | hf | hf | hf | hf | hf
  · simp only [periodLo, periodHi, todLo, todHi, hf, YEARLY, MONTHLY,
      WEEKLY, DAILY, HOURLY, MINUTELY, SECONDLY]
    norm_num
    have := daysToYear_mono (show c.year ≤ c.year + 1 by omega)
    omega
  · have hM := invM hf
    simp only [periodLo, periodHi, todLo, todHi, hf, YEARLY, MONTHLY,
      WEEKLY, DAILY, HOURLY, MINUTELY, SECONDLY]
    norm_num
    have := mrangeOf_mono c.year (j := c.month - 1) (k := c.month)
      (by omega) (by omega) (by omega)
    omega
  · have hKb := wGap_bounds (pyDow (curAbs c)) r.wkst
    simp only [periodLo, periodHi, todLo, todHi, hf, YEARLY, MONTHLY,
      WEEKLY, DAILY, HOURLY, MINUTELY, SECONDLY]
    norm_num
    omega
  · simp only [periodLo, periodHi, todLo, todHi, hf, YEARLY, MONTHLY,
      WEEKLY, DAILY, HOURLY, MINUTELY, SECONDLY]
    norm_num
  · simp only [periodLo, periodHi, todLo, todHi, hf, YEARLY, MONTHLY,
      WEEKLY, DAILY, HOURLY, MINUTELY, SECONDLY]
    norm_num
  · simp only [periodLo, periodHi, todLo, todHi, hf, YEARLY, MONTHLY,
      WEEKLY, DAILY, HOURLY, MINUTELY, SECONDLY]
    norm_num
  · simp only [periodLo, periodHi, todLo, todHi, hf, YEARLY, MONTHLY,
      WEEKLY, DAILY, HOURLY, MINUTELY, SECONDLY]
    norm_num

theorem stepPeriod_fin {r : RRule} {st : IterState} {emitted : List Int}
    {total : Int} (h : stepPeriod r st = some (.fin emitted total)) :
    ∃ batch flt, periodBatch r st.cur = some (batch, flt) ∧
      emitted.Sublist batch := by
  unfold stepPeriod at h
  split at h
  · exact absurd h (by simp)
  · next batch flt hpb =>
    simp only [] at h
    split at h
    · injection h with h
      injection h with h1 h2
      subst h1
      exact ⟨batch, flt, hpb, emitLoop_sublist r batch st.count st.total⟩
    · split at h
      · exact absurd h (by simp)
      · injection h with h
        injection h with h1 h2
        subst h1
        exact ⟨batch, flt, hpb, emitLoop_sublist r batch st.count st.total⟩
      · injection h with h
        exact absurd h (by simp)

theorem stepPeriod_next {r : RRule} {st : IterState} {emitted : List Int}
    {st' : IterState} (h : stepPeriod r st = some (.next emitted st')) :
    ∃ batch flt, periodBatch r st.cur = some (batch, flt) ∧
      emitted.Sublist batch ∧
      stepCursor r st.cur flt = some (.next st'.cur) := by
  unfold stepPeriod at h
  split at h
  · exact absurd h (by simp)
  · next batch flt hpb =>
    simp only [] at h
    split at h
    · injection h with h
      exact absurd h (by simp)
    · split at h
      · exact absurd h (by simp)
      · injection h with h
        exact absurd h (by simp)
      · next c2 hsc =>
        injection h with h
        injection h with h1 h2
        subst h1
        subst h2
        exact ⟨batch, flt, hpb,
          emitLoop_sublist r batch st.count st.total, hsc⟩

theorem runRRule_sorted_aux {r : RRule} (hval : ValidRule r) :
    ∀ (fuel : Nat) (st : IterState) (out : List Int × Bool × RRule),
      CurInv r st.cur → runRRule r st fuel = some out →
      out.1.Sorted (· ≤ ·) ∧ ∀ t ∈ out.1, periodLo r st.cur ≤ t := by
  intro fuel
  induction fuel with
  | zero =>
    intro st out hinv h
    rw [runRRule] at h
    injection h with h
    subst h
    exact ⟨by simp, by simp⟩
  | succ g ih =>
    intro st out hinv h
    rw [runRRule] at h
    split at h
    · exact absurd h (by simp)
    · next emitted total heq =>
      injection h with h
      subst h
      obtain ⟨batch, flt, hpb, hsub⟩ := stepPeriod_fin heq
      have hbo := periodBatch_ok hval hinv hpb
      refine ⟨hbo.1.sublist hsub, ?_⟩
      intro t ht
      exact (hbo.2 t (hsub.subset ht)).1
    · next emitted st' heq =>
      obtain ⟨batch, flt, hpb, hsub, hsc⟩ := stepPeriod_next heq
      have hbo := periodBatch_ok hval hinv hpb
      have hstep := stepCursor_ok hval hinv hsc
      split at h
      · exact absurd h (by simp)
      · next s hrun =>
        injection h with h
        subst h
        have hih := ih st' s hstep.1 hrun
        have hlohi := periodLo_le_hi hval hinv
        constructor
        · refine List.pairwise_append.2 ⟨hbo.1.sublist hsub, hih.1, ?_⟩
          intro x hx y hy
          have hxb := (hbo.2 x (hsub.subset hx)).2
          have hyb := hih.2 y hy
          omega
        · intro t ht
          rcases List.mem_append.mp ht with ht | ht
          · exact (hbo.2 t (hsub.subset ht)).1
          · have := hih.2 t ht
            have := hstep.2
            omega

theorem NewRRule_valid {arg : ROption} {r : RRule} (h : NewRRule arg = some r)
    (hg : GoodOpts arg) : ValidRule r ∧ CurInv r (initState r).cur := by
  obtain ⟨hgf0, hgf6, hgdt, hgw0, hgw7⟩ := hg
  rw [show SECONDLY = 6 from rfl] at hgf6
  unfold validDT at hgdt
  unfold NewRRule at h
  split at h
  case isFalse => exact absurd h (by simp)
  case isTrue hv =>
  have hsb := (validateBounds_iff arg).mp hv
  obtain ⟨hs1, hs2, hs3, hs4, hs5, hs6, hs7, hs8, hs9, hs10⟩ := hsb
  injection h with h'
  have hfreq : r.freq = arg.freq := by rw [← h']
  have hintv : r.interval =
      if (arg.interval == 0) = true then 1 else arg.interval := by rw [← h']
  have hwkst : r.wkst = arg.wkst.weekday := by rw [← h']
  have hdt : r.dtstart = arg.dtstart := by rw [← h']
  have hbyh : r.byhour = (if arg.byhour.isEmpty then
      (if arg.freq < HOURLY then [arg.dtstart.hour] else [])
      else arg.byhour) := by rw [← h']
  have hbym : r.byminute = (if arg.byminute.isEmpty then
      (if arg.freq < MINUTELY then [arg.dtstart.minute] else [])
      else arg.byminute) := by rw [← h']
  have hbys : r.bysecond = (if arg.bysecond.isEmpty then
      (if arg.freq < SECONDLY then [arg.dtstart.second] else [])
      else arg.bysecond) := by rw [← h']
  have htsr : r.timeset = calculateTimeset arg.freq
      (if arg.byhour.isEmpty then
        (if arg.freq < HOURLY then [arg.dtstart.hour] else [])
        else arg.byhour)
      (if arg.byminute.isEmpty then
        (if arg.freq < MINUTELY then [arg.dtstart.minute] else [])
        else arg.byminute)
      (if arg.bysecond.isEmpty then
        (if arg.freq < SECONDLY then [arg.dtstart.second] else [])
        else arg.bysecond) := by rw [← h']
  have hbh' : ∀ v ∈ (if arg.byhour.isEmpty then
      (if arg.freq < HOURLY then [arg.dtstart.hour] else [])
      else arg.byhour), 0 ≤ v ∧ v < 24 := by
    intro v hv'
    split at hv'
    · split at hv'
      · simp only [List.mem_singleton] at hv'
        subst hv'
        omega
      · exact absurd hv' (by simp)
    · have := hs3 v hv'
      omega
  have hbm' : ∀ v ∈ (if arg.byminute.isEmpty then
      (if arg.freq < MINUTELY then [arg.dtstart.minute] else [])
      else arg.byminute), 0 ≤ v ∧ v < 60 := by
    intro v hv'
    split at hv'
    · split at hv'
      · simp only [List.mem_singleton] at hv'
        subst hv'
        omega
      · exact absurd hv' (by simp)
    · have := hs2 v hv'
      omega
  have hbs' : ∀ v ∈ (if arg.bysecond.isEmpty then
      (if arg.freq < SECONDLY then [arg.dtstart.second] else [])
      else arg.bysecond), 0 ≤ v ∧ v < 60 := by
    intro v hv'
    split at hv'
    · split at hv'
      · simp only [List.mem_singleton] at hv'
        subst hv'
        omega
      · exact absurd hv' (by simp)
    · have := hs1 v hv'
      omega
  have hVR : ValidRule r := by
    refine ⟨?_, by omega, by rw [hfreq, show SECONDLY = 6 from rfl]; omega,
      by omega, by omega, ?_, ?_, ?_⟩
    · rw [hintv]
      split
      · omega
      · next hne =>
        simp only [beq_iff_eq] at hne
        omega
    · rw [hbyh]
      exact hbh'
    · rw [hbym]
      exact hbm'
    · rw [hbys]
      exact hbs'
  refine ⟨hVR, ?_, ?_, ?_, ?_, ?_, ?_, ?_, ?_⟩
  · intro h1
    unfold initState
    dsimp only
    rw [hdt]
    omega
  · intro h1
    unfold initState
    dsimp only
    rw [hdt]
    omega
  · intro h1
    rfl
  · intro h1
    unfold initState
    dsimp only
    rw [hdt]
    omega
  · intro h1
    unfold initState
    dsimp only
    rw [hdt]
    omega
  · intro h1
    unfold initState
    dsimp only
    rw [hdt]
    omega
  · unfold initState
    dsimp only
    unfold initTimeset
    split
    · rw [htsr]
      exact calculateTimeset_sorted _ _ _ _
    · split
      · simp
      · exact gettimeset_sorted _ _ _ _ _
  · intro t ht
    unfold initState at ht ⊢
    dsimp only at ht ⊢
    unfold initTimeset at ht
    split at ht
    · next hlt =>
      rw [hfreq, show HOURLY = 4 from rfl] at hlt
      rw [htsr] at ht
      have hb := calculateTimeset_bounds hbh' hbm' hbs' t ht
      have e4 : (r.freq == HOURLY) = false := by
        rw [hfreq, show HOURLY = 4 from rfl]
        simp only [beq_eq_false_iff_ne, ne_eq]
        omega
      have e5 : (r.freq == MINUTELY) = false := by
        rw [hfreq, show MINUTELY = 5 from rfl]
        simp only [beq_eq_false_iff_ne, ne_eq]
        omega
      have e6 : (r.freq == SECONDLY) = false := by
        rw [hfreq, show SECONDLY = 6 from rfl]
        simp only [beq_eq_false_iff_ne, ne_eq]
        omega
      simp only [todLo, todHi, e4, e5, e6]
      norm_num
      omega
    · next hge1 =>
      split at ht
      · exact absurd ht (by simp)
      · rw [hfreq, show HOURLY = 4 from rfl] at hge1
        push_neg at hge1
        have hcases : arg.freq = 4 ∨ arg.freq = 5 ∨ arg.freq = 6 := by
          omega
        have hfq : ∀ k : Int, arg.freq = k → r.freq = k := by
          intro k hk
          rw [hfreq, hk]
        rcases hcases with hf | hf | hf
        · have hrf : r.freq = HOURLY := hfq 4 hf
          rw [hdt] at ht
          have hb := gettimeset_hourly_mem hrf
            (by rw [hbym]; exact hbm') (by rw [hbys]; exact hbs') ht
          have e4 : (r.freq == HOURLY) = true := by
            rw [hrf]
            simp
          simp only [todLo, todHi, e4]
          norm_num
          rw [hdt]
          omega
        · have hrf : r.freq = MINUTELY := hfq 5 hf
          rw [hdt] at ht
          have hb := gettimeset_minutely_mem hrf
            (by rw [hbys]; exact hbs') ht
          have e4 : (r.freq == HOURLY) = false := by
            rw [hrf]
            simp only [beq_eq_false_iff_ne, ne_eq]
            decide
          have e5 : (r.freq == MINUTELY) = true := by
            rw [hrf]
            simp
          simp only [todLo, todHi, e4, e5]
          norm_num
          rw [hdt]
          omega
        · have hrf : r.freq = SECONDLY := hfq 6 hf
          rw [hdt] at ht
          have hb := gettimeset_secondly_mem hrf ht
          have e4 : (r.freq == HOURLY) = false := by
            rw [hrf]
            simp only [beq_eq_false_iff_ne, ne_eq]
            decide
          have e5 : (r.freq == MINUTELY) = false := by
            rw [hrf]
            simp only [beq_eq_false_iff_ne, ne_eq]
            decide
          have e6 : (r.freq == SECONDLY) = true := by
            rw [hrf]
            simp
          simp only [todLo, todHi, e4, e5, e6]
          norm_num
          rw [hdt]
          omega

/-- C4: for a rule NewRRule accepts, built from options inside the data
model (a frequency among the seven constants, a start produced by
time.Date, a weekday-constant WKST), every successful run of the iterator
yields a non-decreasing stream: consecutive outputs satisfy
out[k] ≤ out[k+1].  The strict part of the claim fails — see the
counterexample — so this is the corrected monotonicity statement. -/
theorem claim_C4 (arg : ROption) (r : RRule) (hg : GoodOpts arg)
    (h : NewRRule arg = some r) (fuel : Nat)
    (out : List Int × Bool × RRule) (hrun : rrStream r fuel = some out) :
    out.1.Sorted (· ≤ ·) := by
  obtain ⟨hval, hinv⟩ := NewRRule_valid h hg
  unfold rrStream at hrun
  exact (runRRule_sorted_aux hval fuel (initState r) out hinv hrun).1

/-- Options with a duplicated BYMINUTE entry:
FREQ=DAILY;COUNT=2;BYMINUTE=30,30 from 2020-01-01T09:00:00. -/
def optsDupMin : ROption :=
  { defOpts ⟨2020, 1, 1, 9, 0, 0⟩ with
    freq := DAILY
    count := 2
    byminute := [30, 30] }

/-- The rule of optsDupMin. -/
def ruleDupMin : RRule := (NewRRule optsDupMin).getD default

set_option maxRecDepth 10000 in
/-- C4, counterexample to the claimed strictness: the duplicated BYMINUTE
rule is accepted, its options are inside the data model, and its stream
yields the same instant twice in a row — out[0] = out[1], so
out[k] ≠ out[k+1] fails. -/
theorem claim_C4_cx :
    GoodOpts optsDupMin ∧ NewRRule optsDupMin = some ruleDupMin ∧
    (rrStream ruleDupMin 1).map (fun o => o.1) =
      some [civilSec 2020 1 1 9 30 0, civilSec 2020 1 1 9 30 0] ∧
    ¬ List.Pairwise (fun a b => a ≤ b ∧ a ≠ b)
      [civilSec 2020 1 1 9 30 0, civilSec 2020 1 1 9 30 0] := by
  refine ⟨⟨by decide, by decide, by decide, by decide, by decide⟩,
    by decide, by decide, by decide⟩

set_option maxRecDepth 10000 in
theorem claim_C4_witness :
    GoodOpts optsDaily1 ∧ NewRRule optsDaily1 = some ruleDaily1 ∧
    ∃ out, rrStream ruleDaily1 2 = some out ∧
      out.1.Sorted (· ≤ ·) := by
  have h1 : GoodOpts optsDaily1 :=
    ⟨by decide, by decide, by decide, by decide, by decide⟩
  have h2 : NewRRule optsDaily1 = some ruleDaily1 := by decide
  rcases heq : rrStream ruleDaily1 2 with _ | out
  · have hs : (rrStream ruleDaily1 2).isSome = true := by decide
    rw [heq] at hs
    exact absurd hs (by simp)
  · exact ⟨h1, h2, out, rfl,
      claim_C4 optsDaily1 ruleDaily1 h1 h2 2 out heq⟩
